import Mathlib

/-!
Verification of the line-level tokenizer / parser / logger / log-rotator
pipeline of the VSCodeLogMagic editor extension, against a shallow
embedding of its TypeScript sources.

Strings are embedded as lists of characters (`Str`).  Mutable token
arrays are embedded as immutable lists threaded through the step
functions.  JavaScript exceptions are embedded with `Except`.  Loops
whose sources carry explicit iteration ceilings keep those ceilings as
fuel arguments; loops without a source ceiling get a fuel argument that
the callers instantiate with a provably sufficient bound (the loops
advance their index by at least one position per iteration).
-/

/-- Character-list strings, the value domain of every token. -/
abbrev Str := List Char

/-- Does `pat` occur at the head of `l`? (JavaScript `String.startsWith`). -/
def listStartsWith : Str → Str → Bool
  | _, [] => true
  | [], _ :: _ => false
  | c :: cs, p :: ps => c = p ∧ listStartsWith cs ps

/-- First index at which `sub` occurs as a contiguous substring of `s`
(JavaScript `String.indexOf`; the empty pattern matches at index 0). -/
def subIndexOf (s sub : Str) : Option Nat :=
  go s 0
where
  go : Str → Nat → Option Nat
    | [], i => if sub.isEmpty then some i else none
    | c :: cs, i =>
      if listStartsWith (c :: cs) sub then some i else go cs (i + 1)

/-- JavaScript `String.includes` (substring containment). -/
def strIncludes (s sub : Str) : Bool :=
  (subIndexOf s sub).isSome

/-- JavaScript `String.startsWith(sub, i)`: `sub` occurs at offset `i`. -/
def startsWithAt (s sub : Str) (i : Nat) : Bool :=
  listStartsWith (s.drop i) sub

/-- JavaScript `String.replace` with a string pattern: replaces only the
first occurrence of `pat` by `rep` (no occurrence: the string is
returned unchanged). -/
def jsReplaceOnce (s pat rep : Str) : Str :=
  match subIndexOf s pat with
  | none => s
  | some i => s.take i ++ rep ++ s.drop (i + pat.length)

/-- JavaScript `String.substring(a, b)`: clamps both arguments to the
string length and swaps them when `a > b`. -/
def jsSubstring (s : Str) (a b : Nat) : Str :=
  let a' := min a s.length
  let b' := min b s.length
  (s.take (max a' b')).drop (min a' b')

/-- Token categories (the source keeps them as the string constants
TOKEN_NUMBER, TOKEN_STRING, ... of tokenizer.ts). -/
inductive TokenType where
  | number
  | string
  | identifier
  | keyword
  | punctuation
  | operator
  | comment
  | whitespace
deriving DecidableEq, Repr

/-- One classified atom of source text (tokenizer.ts `Token`). -/
structure Token where
  type : TokenType
  value : Str
deriving DecidableEq, Repr

/-- Remove `cnt` elements starting at index `i` (JavaScript
`Array.splice(i, cnt)` restricted to deletion). -/
def spliceRemove (l : List α) (i cnt : Nat) : List α :=
  l.take i ++ l.drop (i + cnt)

/- ===== util.ts ===== -/

/-- util.ts `PARENS`. -/
def PARENS : Str := "\x7b[()]\x7d".toList

/-- util.ts `PARENS_EXT` (adds angle brackets, used for generics). -/
def PARENS_EXT : Str := "\x7b[(<>)]\x7d".toList

/-- util.ts `isPuncOrOp`. -/
def isPuncOrOp (t : Token) : Bool :=
  t.type = TokenType.punctuation ∨ t.type = TokenType.operator

/-- util.ts `isSameParen`: a punctuation/operator token whose value
equals the block's opening delimiter. -/
def isSameParen (t : Token) (initialParen : Str) : Bool :=
  isPuncOrOp t ∧ t.value = initialParen

/-- util.ts `isOppositeParen` over a given delimiter-pair string: the
token's value is the single character
`parens[parens.length - 1 - parens.indexOf(initialParen)]`.  When
`initialParen` does not occur in `parens`, JavaScript indexes the string
out of bounds and the comparison is always false. -/
def isOppositeParen (parens : Str) (t : Token) (initialParen : Str) : Bool :=
  match subIndexOf parens initialParen with
  | none => false
  | some idx =>
    isPuncOrOp t ∧ t.value = [parens.getD (parens.length - 1 - idx) ' ']

/-- Walk direction of the token-scanning utilities; the source uses the
integer values `1` (forward) and `-1` (backward). -/
inductive Direction where
  | fwd
  | bwd
deriving DecidableEq, Repr

/-- Forward scanning loop of util.ts `getCodeBlockAt` (direction `1`):
visit indices `i, i+1, ...` while they are in bounds, pushing every
visited token, incrementing the nesting depth on a same-delimiter token
and decrementing it on an opposite-delimiter token; stop right after the
depth would reach `-1` (here: an opposite delimiter seen at depth 0). -/
def codeBlockFwd (tokens : List Token) (parens initialParen : Str) :
    Nat → Nat → Nat → List Token
  | _, _, 0 => []
  | i, depth, fuel + 1 =>
    match tokens.get? i with
    | none => []
    | some t =>
      if isSameParen t initialParen then
        t :: codeBlockFwd tokens parens initialParen (i + 1) (depth + 1) fuel
      else if isOppositeParen parens t initialParen then
        match depth with
        | 0 => [t]
        | d + 1 => t :: codeBlockFwd tokens parens initialParen (i + 1) d fuel
      else
        t :: codeBlockFwd tokens parens initialParen (i + 1) depth fuel

/-- Backward scanning loop of util.ts `getCodeBlockAt` (direction `-1`):
visit indices `i, i-1, ...` while `i > 0` (the loop condition
`i > 0 && i < tokens.length` never lets the scan examine index 0). -/
def codeBlockBwd (tokens : List Token) (parens initialParen : Str) :
    Nat → Nat → Nat → List Token
  | _, _, 0 => []
  | 0, _, _ + 1 => []
  | i + 1, depth, fuel + 1 =>
    if i + 1 < tokens.length then
      match tokens.get? (i + 1) with
      | none => []
      | some t =>
        if isSameParen t initialParen then
          t :: codeBlockBwd tokens parens initialParen i (depth + 1) fuel
        else if isOppositeParen parens t initialParen then
          match depth with
          | 0 => [t]
          | d + 1 => t :: codeBlockBwd tokens parens initialParen i d fuel
        else
          t :: codeBlockBwd tokens parens initialParen i depth fuel
    else []

/-- Modelled from the spec: the newest util.ts (its `getCodeBlockAt`
with a delimiter-pair parameter) is absent from the sources — only its
callers and an earlier revision are present.  Per spec §4.2 the
matched-block extraction walks from an opening delimiter of a known
delimiter-pair set (optionally including angle brackets) in a given
direction, tracking nesting depth of same-kind delimiters, and returns
the run from the opener to its matching closer; the delimiter-pair
parameter participates in the closer matching (the earlier in-source
revision hardcodes `PARENS` inside `isOppositeParen`, which would make
angle-bracket blocks unmatchable, contradicting the language tests).
A start index that is out of bounds, or a start token that is not a
punctuation/operator drawn from `parens`, yields the empty run. -/
def getCodeBlockAt (tokens : List Token) (startIndex : Nat)
    (dir : Direction := Direction.fwd) (parens : Str := PARENS) : List Token :=
  match tokens.get? startIndex with
  | none => []
  | some start =>
    let initialParen := start.value
    if isPuncOrOp start ∧ strIncludes parens initialParen then
      match dir with
      | Direction.fwd =>
        start :: codeBlockFwd tokens parens initialParen (startIndex + 1) 0 tokens.length
      | Direction.bwd =>
        start :: codeBlockBwd tokens parens initialParen (startIndex - 1) 0 tokens.length
    else []

/-- Modelled from the spec: completeness check of the newest util.ts
(absent from the sources, see `getCodeBlockAt`).  A run is a complete
code block when it is non-empty, starts with a punctuation/operator
token and ends with that token's exact complementary closer; the

delimiter-pair set must cover angle brackets so that generic blocks
returned by `getCodeBlockAt _ _ _ PARENS_EXT` can pass the check. -/
def isCompleteCodeBlock (tokens : List Token) : Bool :=
  match tokens with
  | [] => false
  | t0 :: rest =>
    isPuncOrOp t0 ∧
      isOppositeParen PARENS_EXT ((t0 :: rest).getLast (List.cons_ne_nil t0 rest)) t0.value

/-- util.ts `quoteString`: wraps `str` in `quoteChar` and escapes the
quote character inside the string with a backslash.  The source uses
`str.replace(quoteChar, '\\' + quoteChar)` with a *string* pattern,
which in JavaScript replaces only the first occurrence. -/
def quoteString (str : Str) (quoteChar : Str := "\x22".toList) : Str :=
  quoteChar ++ jsReplaceOnce str quoteChar ('\\' :: quoteChar) ++ quoteChar

/-- util.ts `serializeToken`: String tokens are quoted, all other tokens
serialize to their value text. -/
def serializeToken (token : Token) (quoteChar : Str := "\x22".toList) : Str :=
  if token.type = TokenType.string then quoteString token.value quoteChar
  else token.value

/-- util.ts `serializeTokens`: concatenation of the serialized tokens.
The newest revision threads a quote character through to
`serializeToken` (its callers pass `format.quoteCharacter`). -/
def serializeTokens (tokens : List Token) (quoteChar : Str := "\x22".toList) : Str :=
  tokens.foldl (fun acc t => acc ++ serializeToken t quoteChar) []

/-- util.ts `popColon`: removes one trailing colon from the token value
if there is one. -/
def popColon (token : Token) : Token :=
  match token.value.getLast? with
  | some ':' => { token with value := token.value.dropLast }
  | _ => token

/- ===== tokenizer.ts ===== -/

/-- The syntax configuration specified per language
(tokenizer.ts `TokenizerConfig`). -/
structure TokenizerConfig where
  PUNCTUATION : Str
  IDENTIFIER_START : Str
  IDENTIFIER : Str
  OPERATOR : Str
  STRING_DELIM : Str
  SINGLE_LINE_COMMENT : Str
  MULTI_LINE_COMMENT_START : Str
  MULTI_LINE_COMMENT_END : Str
  KEYWORD : List Str
deriving DecidableEq, Repr

/-- tokenizer.ts `isWhitespace`: the JavaScript regular expression
`/\s/` on the common ASCII whitespace characters. -/
def jsIsSpace (c : Char) : Bool :=
  c = ' ' ∨ c = '\t' ∨ c = '\n' ∨ c = '\r' ∨ c = '\x0b' ∨ c = '\x0c'

/-- tokenizer.ts `isDigit`: membership in the literal '1234567890'. -/
def isDigitChar (c : Char) : Bool :=
  "1234567890".toList.contains c

/-- tokenizer.ts `readWhile` loop body: read characters from index `i`
while `conditionFn` holds of the current character (out-of-bounds reads
make every condition false), returning the read string and the new caret.
`fuel` bounds the iteration count; callers pass at least
`input.length + 1`, which the loop can never exhaust. -/
def readWhileAux (p : Char → Bool) (input : Str) : Nat → Nat → Str × Nat
  | 0, i => ([], i)
  | fuel + 1, i =>
    match input.get? i with
    | none => ([], i)
    | some c =>
      if p c then
        let (s, j) := readWhileAux p input fuel (i + 1)
        (c :: s, j)
      else ([], i)

/-- tokenizer.ts `readWhile`. -/
def readWhile (p : Char → Bool) (input : Str) (i : Nat) : Str × Nat :=
  readWhileAux p input (input.length + 1) i

/-- tokenizer.ts `readUntil` loop body: read from index `i` until
`endDelim` occurs at the caret, honoring backslash escapes when
`canEscape` (the escape character is skipped and the following character
consumed without terminating the read). -/
def readUntilAux (input endDelim : Str) (canEscape : Bool) :
    Nat → Nat → Bool → Str × Nat
  | 0, i, _ => ([], i)
  | fuel + 1, i, escaped =>
    match input.get? i with
    | none => ([], i)
    | some c =>
      if escaped then
        let (s, j) := readUntilAux input endDelim canEscape fuel (i + 1) false
        (c :: s, j)
      else if canEscape ∧ c = '\\' then
        readUntilAux input endDelim canEscape fuel (i + 1) true
      else if startsWithAt input endDelim i then
        ([], i)
      else
        let (s, j) := readUntilAux input endDelim canEscape fuel (i + 1) false
        (c :: s, j)

/-- tokenizer.ts `readUntil`. -/
def readUntil (input : Str) (i : Nat) (endDelim : Str)
    (canEscape : Bool := true) : Str × Nat :=
  readUntilAux input endDelim canEscape (input.length + 1) i false

/-- tokenizer.ts `readWhitespace`. -/
def readWhitespace (input : Str) (i : Nat) : Token × Nat :=
  let (s, j) := readWhile jsIsSpace input i
  ({ type := TokenType.whitespace, value := s }, j)

/-- tokenizer.ts `readNumber`: a raw run of decimal digits, kept as a
string. -/
def readNumber (input : Str) (i : Nat) : Token × Nat :=
  let (s, j) := readWhile isDigitChar input i
  ({ type := TokenType.number, value := s }, j)

/-- tokenizer.ts `readOperator`: a maximal run of operator characters. -/
def readOperator (conf : TokenizerConfig) (input : Str) (i : Nat) : Token × Nat :=
  let (s, j) := readWhile (fun c => conf.OPERATOR.contains c) input i
  ({ type := TokenType.operator, value := s }, j)

/-- tokenizer.ts `readPunctuation`: a single punctuation character. -/
def readPunctuation (c : Char) (i : Nat) : Token × Nat :=
  ({ type := TokenType.punctuation, value := [c] }, i + 1)

/-- tokenizer.ts `readIdentifier`: a maximal run of identifier-body
characters, re-tagged as a keyword when the text occurs in the
configured keyword list. -/
def readIdentifier (conf : TokenizerConfig) (input : Str) (i : Nat) : Token × Nat :=
  let (s, j) := readWhile (fun c => conf.IDENTIFIER.contains c) input i
  ({ type := if conf.KEYWORD.contains s then TokenType.keyword
             else TokenType.identifier,
     value := s }, j)

/-- tokenizer.ts `readString`: consume the opening quote, read to the
matching close quote honoring escapes, consume the closing quote. -/
def readString (input : Str) (i : Nat) (quoteChar : Str) : Token × Nat :=
  let (s, j) := readUntil input (i + quoteChar.length) quoteChar true
  ({ type := TokenType.string, value := s }, j + quoteChar.length)

/-- tokenizer.ts `readSingleLineComment`: everything after the comment
marker, caret moved to the end of the line. -/
def readSingleLineComment (conf : TokenizerConfig) (input : Str) (i : Nat) :
    Token × Nat :=
  ({ type := TokenType.comment,
     value := input.drop (i + conf.SINGLE_LINE_COMMENT.length) }, input.length)

/-- tokenizer.ts `readMultiLineComment`: everything up to the literal
end marker (no escaping). -/
def readMultiLineComment (conf : TokenizerConfig) (input : Str) (i : Nat) :
    Token × Nat :=
  let (s, j) := readUntil input (i + conf.MULTI_LINE_COMMENT_START.length)
    conf.MULTI_LINE_COMMENT_END false
  ({ type := TokenType.comment, value := s }, j + conf.MULTI_LINE_COMMENT_END.length)

/-- The fatal tokenizer error text: names the unparsable fragment via
JavaScript `input.substring(i, 16)`. -/
def tokenizeErrMsg (input : Str) (i : Nat) : Str :=
  "LogMagic: Tokenizer failed to parse next token \x22".toList
    ++ jsSubstring input i 16 ++ "...\x22".toList

/-- Does the character / position match none of the tokenizer's readers
(the `default` case of the dispatch in tokenizer.ts `tokenize`)? -/
def tokenizerBadCharAt (conf : TokenizerConfig) (input : Str) (i : Nat) (c : Char) : Prop :=
  ¬ jsIsSpace c
    ∧ ¬ startsWithAt input conf.SINGLE_LINE_COMMENT i
    ∧ ¬ startsWithAt input conf.MULTI_LINE_COMMENT_START i
    ∧ ¬ isDigitChar c
    ∧ ¬ conf.OPERATOR.contains c
    ∧ ¬ conf.PUNCTUATION.contains c
    ∧ ¬ conf.STRING_DELIM.contains c
    ∧ ¬ conf.IDENTIFIER_START.contains c

instance (conf : TokenizerConfig) (input : Str) (i : Nat) (c : Char) :
    Decidable (tokenizerBadCharAt conf input i c) := by
  unfold tokenizerBadCharAt; infer_instance

/-- The scanning loop of tokenizer.ts `tokenize`: dispatch on the
character at the caret in the source's priority order (whitespace,
single-line comment, multi-line comment, digit, operator, punctuation,
string delimiter, identifier start) and push the token the chosen reader
returns; a character matching no reader raises the fatal error.  The
source bounds the loop by 9999 iterations (`q`), kept here as fuel. -/
def tokenizeLoop (conf : TokenizerConfig) (input : Str) :
    Nat → Nat → Except Str (List Token)
  | 0, _ => Except.ok []
  | fuel + 1, i =>
    match input.get? i with
    | none => Except.ok []
    | some c =>
      let step : Except Str (Token × Nat) :=
        if jsIsSpace c then Except.ok (readWhitespace input i)
        else if startsWithAt input conf.SINGLE_LINE_COMMENT i then
          Except.ok (readSingleLineComment conf input i)
        else if startsWithAt input conf.MULTI_LINE_COMMENT_START i then
          Except.ok (readMultiLineComment conf input i)
        else if isDigitChar c then Except.ok (readNumber input i)
        else if conf.OPERATOR.contains c then Except.ok (readOperator conf input i)
        else if conf.PUNCTUATION.contains c then Except.ok (readPunctuation c i)
        else if conf.STRING_DELIM.contains c then Except.ok (readString input i [c])
        else if conf.IDENTIFIER_START.contains c then
          Except.ok (readIdentifier conf input i)
        else Except.error (tokenizeErrMsg input i)
      match step with
      | Except.error e => Except.error e
      | Except.ok (tok, j) =>
        match tokenizeLoop conf input fuel j with
        | Except.error e => Except.error e
        | Except.ok rest => Except.ok (tok :: rest)

/-- tokenizer.ts `tokenize` (the function returned by
`createTokenizer(config)`): scan the whole line from caret 0. -/
def tokenize (conf : TokenizerConfig) (input : Str) : Except Str (List Token) :=
  tokenizeLoop conf input 9999 0

/- ===== logger.ts ===== -/

/-- One log statement format (logger.ts `LogFormat`).  Field renames
against the source: `logHead` is logPrefix, `paramSep` is
parameterSeparator, `identHead` is identifierPrefix, `identTail` is
identifierSuffix, `logTail` is logSuffix, `quoteChar` is
quoteCharacter; `insertSpaces` keeps its name. -/
structure LogFormat where
  logHead : Str
  paramSep : Str
  identHead : Str
  identTail : Str
  logTail : Str
  quoteChar : Str
  insertSpaces : Bool
deriving DecidableEq, Repr

/-- parser.ts `ParseResult`: the mutable accumulator threaded through a
parse-step pipeline. -/
structure ParseResult where
  tokens : List Token
  logItems : List (List Token)
  logId : Option Token := none
  logFormat : Option LogFormat := none
deriving DecidableEq, Repr

/-- Modelled from the spec: util.ts `shortenIdentifier` is absent from
the sources (only callers reference it).  Per spec §4.4 and the
changelog, identifiers over a fixed length threshold are abbreviated by
keeping a head and a tail fragment joined with '..'
('someVeryLongIdentifier' becomes 'someVery..entifier', 18 characters,
so the threshold is 18 and both fragments are 8 characters long). -/
def shortenIdentifier (s : Str) : Str :=
  if s.length > 18 then s.take 8 ++ "..".toList ++ s.drop (s.length - 8)
  else s

/-- logger.ts `createLogItemKey`: quote the serialized item value with a
trailing colon, padding with spaces per the format's `insertSpaces`
(no leading pad space on the very first parameter). -/
def createLogItemKey (serializedItemValue : Str) (isFirst : Bool)
    (format : LogFormat) : Str :=
  let spacePre : Str := if format.insertSpaces ∧ ¬ isFirst then [' '] else []
  let spaceSuf : Str := if format.insertSpaces then [' '] else []
  quoteString (spacePre ++ shortenIdentifier serializedItemValue
      ++ [':'] ++ spaceSuf) format.quoteChar

/-- logger.ts `listLogItems`: render every log item, preceded by a
synthesized key unless the item consists of literals only, and wrapped
in the format's identifier decorations; all joined with the parameter
separator. -/
def listLogItems (parseResult : ParseResult) (format : LogFormat)
    (usingLogId : Bool) : Str :=
  List.intercalate format.paramSep <|
    parseResult.logItems.enum.map fun (i, logItem) =>
      let serializedItemValue := serializeTokens logItem format.quoteChar
      let itemIsOnlyLiterals :=
        (logItem.find? fun t =>
          t.type = TokenType.identifier ∨ t.type = TokenType.keyword).isNone
      (if ¬ itemIsOnlyLiterals then
        createLogItemKey serializedItemValue (¬ usingLogId ∧ i = 0) format
          ++ format.paramSep
       else [])
        ++ format.identHead ++ serializedItemValue ++ format.identTail

/-- The fatal message of logger.ts `log` when no format is available. -/
def logNeedsFormatMsg : Str :=
  "LogMagic: log needs to be passed a LogFormat or have one on the ParseResult object".toList

/-- logger.ts `log`: render a ParseResult with the given format, or the
one stored on the result; with neither, throw.  The log id is rendered
as a leading quoted string unless its serialized form equals the
serialized form of the first log item. -/
def log (parseResult : ParseResult) (format? : Option LogFormat) : Except Str Str :=
  match format?.orElse (fun _ => parseResult.logFormat) with
  | none => Except.error logNeedsFormatMsg
  | some format =>
    let logIdMatchesItemKey : Bool :=
      match parseResult.logId, parseResult.logItems with
      | some logId, item0 :: _ =>
        serializeToken logId format.quoteChar == serializeTokens item0 format.quoteChar
      | _, _ => false
    let useLogId : Bool := parseResult.logId.isSome && ! logIdMatchesItemKey
    let params : List Str :=
      (match parseResult.logId with
       | some logId => if useLogId then [quoteString logId.value format.quoteChar] else []
       | none => [])
        ++ (if parseResult.logItems.isEmpty then []
            else [listLogItems parseResult format useLogId])
    Except.ok (format.logHead ++ List.intercalate format.paramSep params
      ++ format.logTail)

/- ===== parser.ts ===== -/

/-- The scanning loop of parser.ts `getSetDefaultIdFn`: the first token
that is an interesting keyword, an identifier or a string. -/
def setDefaultIdLoop (interestingKeywords : List Str) : List Token → Option Token
  | [] => none
  | t :: ts =>
    if (t.type = TokenType.keyword
          ∧ interestingKeywords.contains (serializeToken t))
        ∨ t.type = TokenType.identifier
        ∨ t.type = TokenType.string then some t
    else setDefaultIdLoop interestingKeywords ts

/-- parser.ts `getSetDefaultIdFn` applied to a result: record a copy of
the found token as the log id (the token array itself is untouched);
with no match the result is returned unchanged. -/
def getSetDefaultIdFn (interestingKeywords : List Str)
    (result : ParseResult) : ParseResult :=
  match setDefaultIdLoop interestingKeywords result.tokens with
  | some t => { result with logId := some t }
  | none => result

/-- logRotator.ts `getMatchingTokens`, forward walk: serialize tokens
one at a time, return the matched ascending slice as soon as the
growing concatenation equals `str`.  (parser.ts imports an identical
function from the newest util.ts.) -/
def getMatchingTokensFwdAux (str : Str) :
    List Token → Str → List Token → List Token
  | [], _, _ => []
  | t :: ts, acc, taken =>
    let acc' := acc ++ serializeToken t
    let taken' := taken ++ [t]
    if acc' = str then taken' else getMatchingTokensFwdAux str ts acc' taken'

/-- logRotator.ts `getMatchingTokens`, backward walk: tokens are visited
in descending index order and their serializations prepended. -/
def getMatchingTokensBwdAux (str : Str) :
    List Token → Str → List Token → List Token
  | [], _, _ => []
  | t :: ts, acc, taken =>
    let acc' := serializeToken t ++ acc
    let taken' := t :: taken
    if acc' = str then taken' else getMatchingTokensBwdAux str ts acc' taken'

/-- logRotator.ts `getMatchingTokens`: fuzzy multi-token string
matching from a given index in a given direction; the empty list when
no prefix of the walk serializes to `str`. -/
def getMatchingTokens (tokens : List Token) (str : Str) (index : Nat := 0)
    (dir : Direction := Direction.fwd) : List Token :=
  match dir with
  | Direction.fwd => getMatchingTokensFwdAux str (tokens.drop index) [] []
  | Direction.bwd =>
    getMatchingTokensBwdAux str ((tokens.take (index + 1)).reverse) [] []

/-- First non-empty match list (the prefix/suffix search loops of
parser.ts `getCombineConsecutiveTokensOfTypeFn` break on the first
candidate that matches). -/
def firstNonEmptyMatch (tokens : List Token) (cands : List Str) (i : Nat) :
    List Token :=
  match cands with
  | [] => []
  | p :: ps =>
    let m := getMatchingTokens tokens p i Direction.fwd
    if m.isEmpty then firstNonEmptyMatch tokens ps i else m

/-- The greedy chain-collection loop of parser.ts
`getCombineConsecutiveTokensOfTypeFn`: alternate between chainable token
types (even chain positions) and allowed single-token separators (odd
chain positions). -/
def greedyChain (typesToChain : List TokenType) (allowedSeps : List Str) :
    List Token → Nat → List Token
  | [], _ => []
  | t :: ts, k =>
    if (if k % 2 = 0 then typesToChain.contains t.type
        else allowedSeps.contains (serializeToken t)) then
      t :: greedyChain typesToChain allowedSeps ts (k + 1)
    else []

/-- One pass of the outer loop of parser.ts
`getCombineConsecutiveTokensOfTypeFn`: at each index, match an optional
prefix, greedily collect the alternating chain, drop a trailing
separator, match an optional suffix, and when at least two tokens
chained, replace the whole run by a single re-typed token carrying the
concatenated serialized text. -/
def combineChainLoop (typesToChain : List TokenType) (newType : TokenType)
    (allowedSeps allowedPres allowedSufs : List Str) :
    List Token → Nat → Nat → List Token
  | tokens, _, 0 => tokens
  | tokens, i, fuel + 1 =>
    if i < tokens.length then
      let preToks := firstNonEmptyMatch tokens allowedPres i
      let chain := greedyChain typesToChain allowedSeps
        (tokens.drop (i + preToks.length)) 0
      let chain :=
        match chain.getLast? with
        | some t =>
          if allowedSeps.contains (serializeToken t) then chain.dropLast else chain
        | none => chain
      let sufToks := firstNonEmptyMatch tokens allowedSufs
        (i + preToks.length + chain.length)
      if chain.length < 2 then
        combineChainLoop typesToChain newType allowedSeps allowedPres allowedSufs
          tokens (i + 1) fuel
      else
        let merged : Token :=
          { type := newType,
            value := serializeTokens (preToks ++ chain ++ sufToks) }
        let tokens' := spliceRemove (tokens.set i merged) (i + 1)
          (preToks.length + chain.length + sufToks.length - 1)
        combineChainLoop typesToChain newType allowedSeps allowedPres allowedSufs
          tokens' (i + 1) fuel
    else tokens

/-- parser.ts `getCombineConsecutiveTokensOfTypeFn` applied to a
result. -/
def getCombineConsecutiveTokensOfTypeFn (typesToChain : List TokenType)
    (newType : TokenType) (allowedSeps : List Str)
    (allowedPres : List Str := []) (allowedSufs : List Str := [])
    (result : ParseResult) : ParseResult :=
  { result with
    tokens := combineChainLoop typesToChain newType allowedSeps allowedPres
      allowedSufs result.tokens 0 (result.tokens.length + 1) }

/- ===== numeric literal recombination (parser.ts getCombineMatchingTokens) ===== -/

/-- Consume one expected character, case-insensitively. -/
def eatCharCI (c : Char) : Str → Option Str
  | [] => none
  | x :: xs => if x.toLower = c.toLower then some xs else none

/-- Consume an expected literal, case-insensitively. -/
def eatSeqCI : Str → Str → Option Str
  | [], s => some s
  | c :: cs, s => (eatCharCI c s).bind (eatSeqCI cs)

/-- Consume the first alternative literal that matches (regular
expression alternation order). -/
def eatFirstCI : List Str → Str → Option Str
  | [], _ => none
  | l :: ls, s =>
    match eatSeqCI l s with
    | some r => some r
    | none => eatFirstCI ls s

/-- Consume one or more characters satisfying `p` (greedy `[...]+`). -/
def eatDigits1 (p : Char → Bool) : Str → Option Str
  | [] => none
  | c :: cs => if p c then some (cs.dropWhile p) else none

/-- Apply a group zero or more times (greedy `(...)*`); the fuel is the
remaining string length, which a matching group always decreases. -/
def manyGroups (g : Str → Option Str) : Nat → Str → Str
  | 0, s => s
  | fuel + 1, s =>
    match g s with
    | none => s
    | some s' => if s'.length < s.length then manyGroups g fuel s' else s

/-- Apply an optional group (`(...)?`). -/
def optEat (g : Str → Option Str) (s : Str) : Str :=
  (g s).getD s

/-- Hexadecimal digit under the /i flag. -/
def isHexDigitChar (c : Char) : Bool :=
  "0123456789abcdef".toList.contains c.toLower

/-- An underscore-separated digit group `(_[0-9]+)`. -/
def eatUnderscoreDigits (s : Str) : Option Str :=
  (eatCharCI '_' s).bind (eatDigits1 isDigitChar)

/-- An underscore-separated hex digit group `(_[0-9a-f]+)`. -/
def eatUnderscoreHexDigits (s : Str) : Option Str :=
  (eatCharCI '_' s).bind (eatDigits1 isHexDigitChar)

/-- Modelled from the spec: full-string match of the C# language
profile's NUMBER_REGEX
`/^-?(0b)?[0-9]+(_[0-9]+)*(\.[0-9]+(_[0-9]+)*)?(e-?[0-9]+(_[0-9]+)*)?(ul|lu|u|l|d|f|m)?/i`,
written as a greedy matcher (the groups of this expression are
unambiguous, so greedy matching coincides with the regular
expression). -/
def csNumberRe (str : Str) : Bool :=
  let s := optEat (eatCharCI '-') str
  let s := optEat (eatSeqCI "0b".toList) s
  match eatDigits1 isDigitChar s with
  | none => false
  | some s =>
    let s := manyGroups eatUnderscoreDigits s.length s
    let s := optEat (fun u =>
      ((eatCharCI '.' u).bind (eatDigits1 isDigitChar)).map
        (fun v => manyGroups eatUnderscoreDigits v.length v)) s
    let s := optEat (fun u =>
      (((eatCharCI 'e' u).map (optEat (eatCharCI '-'))).bind
        (eatDigits1 isDigitChar)).map
        (fun v => manyGroups eatUnderscoreDigits v.length v)) s
    let s := optEat (eatFirstCI
      ["ul".toList, "lu".toList, "u".toList, "l".toList,
       "d".toList, "f".toList, "m".toList]) s
    s.isEmpty

/-- Modelled from the spec: full-string match of the C# language
profile's HEX_NUMBER_REGEX `/^-?(0x)[0-9a-f]+(_[0-9a-f]+)*(ul|lu|u|l|m)?/i`. -/
def csHexRe (str : Str) : Bool :=
  let s := optEat (eatCharCI '-') str
  match eatSeqCI "0x".toList s with
  | none => false
  | some s =>
    match eatDigits1 isHexDigitChar s with
    | none => false
    | some s =>
      let s := manyGroups eatUnderscoreHexDigits s.length s
      let s := optEat (eatFirstCI
        ["ul".toList, "lu".toList, "u".toList, "l".toList, "m".toList]) s
      s.isEmpty

/-- Modelled from the spec: util.ts `getMatchingTokensRe` is absent
from the sources (only its caller, parser.ts `getCombineMatchingTokens`,
is present).  Per spec §4.3 the numeric-literal recombination step
merges a run of tokens matched by a per-language numeric regular
expression; this function returns the serialized texts of the longest
token run starting at `index` whose concatenation fully matches the
expression, or the empty list when no run matches. -/
def getMatchingTokensRe (tokens : List Token) (re : Str → Bool)
    (index : Nat) : List Str :=
  go (tokens.drop index) [] [] []
where
  go : List Token → Str → List Str → List Str → List Str
    | [], _, _, best => best
    | t :: ts, acc, cur, best =>
      let s := serializeToken t
      let acc' := acc ++ s
      let cur' := cur ++ [s]
      go ts acc' cur' (if re acc' then cur' else best)

/-- The scanning loop of parser.ts `getCombineMatchingTokens`: at each
index, find the token run matched by the regular expression and replace
it by a single re-typed token whose value is the joined serialized
text. -/
def combineMatchingLoop (newType : TokenType) (re : Str → Bool) (sep : Str) :
    List Token → Nat → Nat → List Token
  | tokens, _, 0 => tokens
  | tokens, i, fuel + 1 =>
    if i < tokens.length then
      let m := getMatchingTokensRe tokens re i
      if m.isEmpty then combineMatchingLoop newType re sep tokens (i + 1) fuel
      else
        let merged : Token := { type := newType, value := List.intercalate sep m }
        let tokens' := spliceRemove (tokens.set i merged) (i + 1) (m.length - 1)
        combineMatchingLoop newType re sep tokens' (i + 1) fuel
    else tokens

/-- parser.ts `getCombineMatchingTokens` applied to a result. -/
def getCombineMatchingTokens (newType : TokenType) (re : Str → Bool)
    (sep : Str := []) (result : ParseResult) : ParseResult :=
  { result with
    tokens := combineMatchingLoop newType re sep result.tokens 0
      (result.tokens.length + 1) }

/- ===== languages/csharp removeTypes, languages/typescript removeGenerics ===== -/

/-- The contents check of the C# profile's `removeTypes`: every token of
the block other than its two delimiters is an identifier or a comma
(`block.every((t, i) => i === 0 || i === block.length - 1 || ...)`). -/
def blockInnerOk (block : List Token) : Bool :=
  block.enum.all fun (j, t) =>
    j = 0 ∨ j = block.length - 1 ∨ t.type = TokenType.identifier
      ∨ (t.type = TokenType.punctuation ∧ t.value = [','])

/-- The scanning loop of the C# profile's `removeTypes`: at each `<`
operator, remove the angle-bracket block when it is a complete code
block whose interior is restricted to identifiers and commas. -/
def csRemoveTypesLoop : List Token → Nat → Nat → List Token
  | tokens, _, 0 => tokens
  | tokens, i, fuel + 1 =>
    if i < tokens.length then
      match tokens.get? i with
      | none => tokens
      | some t =>
        if t.type = TokenType.operator ∧ t.value = ['<'] then
          let block := getCodeBlockAt tokens i Direction.fwd PARENS_EXT
          if isCompleteCodeBlock block ∧ blockInnerOk block then
            csRemoveTypesLoop (spliceRemove tokens i block.length) (i + 1) fuel
          else csRemoveTypesLoop tokens (i + 1) fuel
        else csRemoveTypesLoop tokens (i + 1) fuel
    else tokens

/-- The second phase of the C# profile's `removeTypes`: of any run of
consecutive identifiers, keep only the last
(`tokens.filter((t, i) => t.type !== IDENT || tokens[i+1]?.type !== IDENT)`). -/
def dropConsecutiveIdents (tokens : List Token) : List Token :=
  (tokens.enum.filter fun (j, t) =>
    ! (t.type == TokenType.identifier
        && (tokens.get? (j + 1)).any (fun t2 => t2.type == TokenType.identifier))).map
    (fun (_, t) => t)

/-- The C# language profile's `removeTypes` parse step. -/
def csRemoveTypes (result : ParseResult) : ParseResult :=
  { result with
    tokens := dropConsecutiveIdents
      (csRemoveTypesLoop result.tokens 0 (result.tokens.length + 1)) }

/-- The scanning loop of the TypeScript profile's `removeGenerics`: at
each `<` operator, remove the angle-bracket block when it is a complete
code block, unless it contains a logical operator (`&&` or `||`). -/
def tsRemoveGenericsLoop : List Token → Nat → Nat → List Token
  | tokens, _, 0 => tokens
  | tokens, i, fuel + 1 =>
    if i < tokens.length then
      match tokens.get? i with
      | none => tokens
      | some t =>
        if t.type = TokenType.operator ∧ t.value = ['<'] then
          let block := getCodeBlockAt tokens i Direction.fwd PARENS_EXT
          if ¬ isCompleteCodeBlock block then
            tsRemoveGenericsLoop tokens (i + 1) fuel
          else if block.any (fun t2 => t2.type == TokenType.operator
              && (t2.value == "&&".toList || t2.value == "||".toList)) then
            tsRemoveGenericsLoop tokens (i + 1) fuel
          else
            tsRemoveGenericsLoop (spliceRemove tokens i block.length) (i + 1) fuel
        else tsRemoveGenericsLoop tokens (i + 1) fuel
    else tokens

/-- The TypeScript language profile's `removeGenerics` parse step. -/
def tsRemoveGenerics (result : ParseResult) : ParseResult :=
  { result with
    tokens := tsRemoveGenericsLoop result.tokens 0 (result.tokens.length + 1) }

/- ===== logRotator.ts ===== -/

/-- The two kinds of JavaScript exceptions the rotator distinguishes:
`ParseError` instances (parser.ts) and all other errors. -/
inductive RotErr where
  | parseErr (msg : Str)
  | other (msg : Str)
deriving DecidableEq, Repr

/-- The rotator's parse state: a ParseResult plus the index the detected
format has in the configuration list.  The source recovers that index
with `config.indexOf(result.logFormat!)`, which compares by object
identity and therefore always finds the exact entry the detection step
stored; recording the index models that identity lookup. -/
structure RotState where
  pr : ParseResult
  fmtIdx : Option Nat := none
deriving DecidableEq, Repr

/-- A rotator parse step (logRotator.ts `ParseStep`, with the thrown
exceptions made explicit). -/
abbrev RotStep := RotState → Except RotErr RotState

/-- The ParseError text of logRotator.ts `getDetectLogFormatFn`. -/
def noFormatFoundMsg : Str :=
  "LogMagic: Failed to parse log statement: no matching log format found.".toList

/-- logRotator.ts `getDetectLogFormatFn`: try each format's log head
against the start of the token stream; the first match wins, its tokens
are consumed and the format (with its index) is recorded; no match at
all throws a ParseError. -/
def detectLogFormatStep (config : List LogFormat) : RotStep := fun st =>
  go config 0 st
where
  go : List LogFormat → Nat → RotState → Except RotErr RotState
    | [], _, _ => Except.error (RotErr.parseErr noFormatFoundMsg)
    | f :: fs, i, st =>
      let m := getMatchingTokens st.pr.tokens f.logHead 0 Direction.fwd
      if m.isEmpty then go fs (i + 1) st
      else Except.ok
        { st with
          pr := { st.pr with logFormat := some f, tokens := st.pr.tokens.drop m.length },
          fmtIdx := some i }

/-- logRotator.ts `removeLogSuffix`: match the detected format's log
tail backward from the last token and strip it. -/
def removeLogTailStep : RotStep := fun st =>
  let tailStr := (st.pr.logFormat.map (fun f => f.logTail)).getD []
  let m := getMatchingTokens st.pr.tokens tailStr (st.pr.tokens.length - 1) Direction.bwd
  if m.isEmpty then Except.ok st
  else Except.ok
    { st with pr := { st.pr with
        tokens := st.pr.tokens.take (st.pr.tokens.length - m.length) } }

/-- logRotator.ts `detectLogId`: when the first non-whitespace token is
a String token, record it (with one trailing colon removed) as the
recovered log id and remove the token at index 0.  The source mutates
the found token in place before splicing index 0, so the embedded
version updates the found position and then removes the head. -/
def detectLogIdStep : RotStep := fun st =>
  match st.pr.tokens.findIdx? (fun t => ! (t.type == TokenType.whitespace)) with
  | none => Except.ok st
  | some k =>
    match st.pr.tokens.get? k with
    | none => Except.ok st
    | some t =>
      if t.type = TokenType.string then
        Except.ok { st with pr := { st.pr with
          logId := some (popColon t),
          tokens := spliceRemove (st.pr.tokens.set k (popColon t)) 0 1 } }
      else Except.ok st

/-- The scanning loop of logRotator.ts `removeIdentifierStrings`:
remove every String token whose value is some later identifier's value
with a colon appended (a re-generated log item key). -/
def removeIdentStringsLoop : List Token → Nat → Nat → List Token
  | tokens, _, 0 => tokens
  | tokens, i, fuel + 1 =>
    if i < tokens.length then
      match tokens.get? i with
      | none => tokens
      | some t =>
        if t.type = TokenType.string
            ∧ (tokens.drop (i + 1)).any (fun t2 =>
                t2.type == TokenType.identifier && t.value == t2.value ++ [':']) then
          removeIdentStringsLoop (spliceRemove tokens i 1) (i + 1) fuel
        else removeIdentStringsLoop tokens (i + 1) fuel
    else tokens

/-- logRotator.ts `removeIdentifierStrings` as a step. -/
def removeIdentifierStringsStep : RotStep := fun st =>
  Except.ok { st with pr := { st.pr with
    tokens := removeIdentStringsLoop st.pr.tokens 0 (st.pr.tokens.length + 1) } }

/-- logRotator.ts `getTokensUntilSeparator`: walk the tokens yielding
the runs between separator matches, treating complete code blocks as
atomic; returns the yielded runs and the final (generator return)
run. -/
def splitItemsGo (tokens : List Token) (sep : Str) :
    Nat → Nat → List Token → List (List Token) × List Token
  | _, 0, acc => ([], acc)
  | i, fuel + 1, acc =>
    if i < tokens.length then
      let m := getMatchingTokens tokens sep i Direction.fwd
      if ! m.isEmpty then
        let (ys, fin) := splitItemsGo tokens sep (i + m.length) fuel []
        (acc :: ys, fin)
      else
        let cb := getCodeBlockAt tokens i Direction.fwd PARENS_EXT
        if isCompleteCodeBlock cb then
          splitItemsGo tokens sep (i + cb.length) fuel (acc ++ cb)
        else
          match tokens.get? i with
          | none => ([], acc)
          | some t => splitItemsGo tokens sep (i + 1) fuel (acc ++ [t])
    else ([], acc)

/-- logRotator.ts `collectLogItems`: split the remaining tokens at the
detected format's parameter separator and store every non-empty run as
a log item. -/
def collectLogItemsStep : RotStep := fun st =>
  let sep := (st.pr.logFormat.map (fun f => f.paramSep)).getD []
  let (ys, fin) := splitItemsGo st.pr.tokens sep 0 (st.pr.tokens.length + 1) []
  let items := ys.filter (fun y => ! y.isEmpty)
    ++ (if fin.isEmpty then [] else [fin])
  Except.ok { st with pr := { st.pr with logItems := items } }

/-- The per-item unwrapping of logRotator.ts
`removeIdentifierPrefixesAndSuffixes`: strip the configured identifier
decorations when both are found, or when the missing one is not
configured. -/
def unwrapItem (head tail : Str) (item : List Token) : List Token :=
  let preT := if head.isEmpty then [] else getMatchingTokens item head 0 Direction.fwd
  let sufT := if tail.isEmpty then []
    else getMatchingTokens item tail (item.length - 1) Direction.bwd
  let item1 := if ¬ preT.isEmpty ∧ (¬ sufT.isEmpty ∨ tail.isEmpty) then
    item.drop preT.length else item
  if ¬ sufT.isEmpty ∧ (¬ preT.isEmpty ∨ head.isEmpty) then
    item1.take (item1.length - sufT.length) else item1

/-- logRotator.ts `removeIdentifierPrefixesAndSuffixes` as a step:
a no-op when neither decoration is configured (JavaScript treats the
empty string as falsy). -/
def removeIdentWrapsStep : RotStep := fun st =>
  match st.pr.logFormat with
  | none => Except.ok st
  | some f =>
    if f.identHead.isEmpty ∧ f.identTail.isEmpty then Except.ok st
    else Except.ok { st with pr := { st.pr with
      logItems := st.pr.logItems.map (unwrapItem f.identHead f.identTail) } }

/-- The per-item loop of logRotator.ts
`getRemoveTokensNotInCodeBlocksFn`: remove tokens of the given type that
are not inside complete code blocks. -/
def stripTypeLoop (ty : TokenType) : List Token → Nat → Nat → List Token
  | item, _, 0 => item
  | item, j, fuel + 1 =>
    if j < item.length then
      let cb := getCodeBlockAt item j Direction.fwd PARENS_EXT
      if isCompleteCodeBlock cb then stripTypeLoop ty item (j + cb.length) fuel
      else
        match item.get? j with
        | none => item
        | some t =>
          if t.type = ty then stripTypeLoop ty (spliceRemove item j 1) j fuel
          else stripTypeLoop ty item (j + 1) fuel
    else item

/-- logRotator.ts `getRemoveTokensNotInCodeBlocksFn` as a step. -/
def removeNotInBlocksStep (ty : TokenType) : RotStep := fun st =>
  Except.ok { st with pr := { st.pr with
    logItems := st.pr.logItems.map
      (fun item => stripTypeLoop ty item 0 (2 * item.length + 1)) } }

/-- logRotator.ts `removeEmptyLogItems` as a step. -/
def removeEmptyLogItemsStep : RotStep := fun st =>
  Except.ok { st with pr := { st.pr with
    logItems := st.pr.logItems.filter (fun item => ! item.isEmpty) } }

/-- The rotator's parse sequence (logRotator.ts `createLogRotator`). -/
def rotatorSteps (config : List LogFormat) : List RotStep :=
  [detectLogFormatStep config, removeLogTailStep, detectLogIdStep,
   removeIdentifierStringsStep, collectLogItemsStep, removeIdentWrapsStep,
   removeNotInBlocksStep TokenType.punctuation,
   removeNotInBlocksStep TokenType.operator, removeEmptyLogItemsStep]

/-- `parseSequence.forEach(fn => fn(result))` with exception
propagation. -/
def runSteps : List RotStep → RotState → Except RotErr RotState
  | [], st => Except.ok st
  | f :: fs, st =>
    match f st with
    | Except.error e => Except.error e
    | Except.ok st' => runSteps fs st'

/-- Modelled from the spec: the final stage of the rotator.  The
in-source `rotatorFn` advances the detected format's index by `+1`
modulo the list length and re-renders; its callers, however, pass a
rotation direction (`1` or `-1`) that spec §4.5 describes as
"advance by direction modulo list length, wrapping both ways" — the
direction-taking revision is absent from the sources, so the backward
wrap is modelled here ( `Direction.fwd` reproduces the in-source
arithmetic exactly).  A missing stored index models JavaScript
`indexOf` returning `-1` (both directions then wrap from the end). -/
def rotatorFinish (config : List LogFormat) (dir : Direction)
    (st : RotState) : Except RotErr Str :=
  let n := config.length
  let idx := st.fmtIdx.getD (n - 1)
  let newIdx := match dir with
    | Direction.fwd => (idx + 1) % n
    | Direction.bwd => (idx + (n - 1)) % n
  match log { st.pr with logFormat := config.get? newIdx } none with
  | Except.error e => Except.error (RotErr.other e)
  | Except.ok s => Except.ok s

/-- The try/catch of logRotator.ts `rotatorFn`: a ParseError from the
step pipeline becomes the `none` sentinel, any other error is re-thrown
unchanged, and a successful parse is re-rendered under the rotated
format. -/
def rotatorRun (steps : List RotStep) (config : List LogFormat)
    (dir : Direction) (tokens : List Token) : Except RotErr (Option Str) :=
  match runSteps steps { pr := { tokens := tokens, logItems := [] } } with
  | Except.error (RotErr.parseErr _) => Except.ok none
  | Except.error (RotErr.other e) => Except.error (RotErr.other e)
  | Except.ok st =>
    match rotatorFinish config dir st with
    | Except.error e => Except.error e
    | Except.ok s => Except.ok (some s)

/-- logRotator.ts `createLogRotator` applied to a token stream (with the
spec-modelled rotation direction, see `rotatorFinish`). -/
def createLogRotator (config : List LogFormat) (tokens : List Token)
    (dir : Direction := Direction.fwd) : Except RotErr (Option Str) :=
  rotatorRun (rotatorSteps config) config dir tokens

/- ===== language configurations ===== -/

/-- The C# language profile's `tokenizerConfig`. -/
def csTokenizerConfig : TokenizerConfig :=
  { PUNCTUATION := ",.;\\[]\x7b\x7d@#()~".toList
    IDENTIFIER_START := "qwertyuiopasdfghjklzxcvbnmQWERTYUIOPASDFGHJKLZXCVBNM$_".toList
    IDENTIFIER :=
      ("qwertyuiopasdfghjklzxcvbnmQWERTYUIOPASDFGHJKLZXCVBNM$_" ++ "_1234567890").toList
    OPERATOR := "-+/*%=<>!|&^?:".toList
    STRING_DELIM := "\x22'".toList
    SINGLE_LINE_COMMENT := "//".toList
    MULTI_LINE_COMMENT_START := "/*".toList
    MULTI_LINE_COMMENT_END := "*/".toList
    KEYWORD :=
      ["abstract", "as", "base", "bool", "break", "byte", "case", "catch", "char",
       "checked", "class", "const", "continue", "decimal", "default", "delegate", "do", "double",
       "else", "enum", "event", "explicit", "extern", "false", "finally", "fixed", "float",
       "for", "foreach", "goto", "if", "implicit", "in", "int", "interface", "internal",
       "is", "lock", "long", "namespace", "new", "null", "object", "operator", "out",
       "override", "params", "private", "protected", "public", "readonly", "ref", "return", "sbyte",
       "sealed", "short", "sizeof", "stackalloc", "static", "string", "struct", "switch", "this",
       "throw", "true", "try", "typeof", "uint", "ulong", "unchecked", "unsafe", "ushort",
       "using", "virtual", "void", "volatile", "while", "add", "and", "alias", "ascending",
       "async", "await", "by", "descending", "dynamic", "equals", "from", "get", "global",
       "group", "init", "into", "join", "let", "managed", "nameof", "nint", "not",
       "notnull", "nuint", "on", "or", "orderby", "partial", "partial", "record", "remove",
       "select", "set", "unmanaged", "unmanaged", "var", "when", "where", "where",
       "with", "yield"].map String.toList }

/-- The JavaScript language profile's `tokenizerConfig`. -/
def jsTokenizerConfig : TokenizerConfig :=
  { PUNCTUATION := ",.;\\[]\x7b\x7d@#()".toList
    IDENTIFIER_START := "qwertyuiopasdfghjklzxcvbnmQWERTYUIOPASDFGHJKLZXCVBNM$_".toList
    IDENTIFIER :=
      ("qwertyuiopasdfghjklzxcvbnmQWERTYUIOPASDFGHJKLZXCVBNM$_" ++ "_1234567890").toList
    OPERATOR := "-+/*%=<>!|&^?:~".toList
    STRING_DELIM := "\x22'\x60".toList
    SINGLE_LINE_COMMENT := "//".toList
    MULTI_LINE_COMMENT_START := "/*".toList
    MULTI_LINE_COMMENT_END := "*/".toList
    KEYWORD :=
      ["break", "case", "catch", "class", "const", "continue", "debugger", "default", "delete",
       "do", "else", "export", "extends", "finally", "for", "function", "if", "import",
       "in", "instanceof", "new", "return", "super", "switch", "this", "throw", "try",
       "typeof", "var", "void", "while", "with", "yield", "implements", "interface", "let",
       "package", "private", "protected", "public", "static", "yield", "abstract", "boolean", "byte",
       "char", "double", "final", "float", "goto", "int", "long", "native", "short",
       "synchronized", "throws", "transient", "volatile", "null", "true", "false", "Infinity", "of",
       "Number", "String", "Date", "Error", "RegExp", "Map", "Set", "WeakMap", "WeakSet",
       "Promise", "await", "async", "Intl", "from"].map String.toList }

/-- One JavaScript console log format (the profile's `loggerConfig`
entries differ only in the function name). -/
def jsFormat (name : String) : LogFormat :=
  { logHead := ("console." ++ name ++ "(").toList
    paramSep := ", ".toList
    identHead := []
    identTail := []
    logTail := ");".toList
    quoteChar := "'".toList
    insertSpaces := false }

/-- The JavaScript language profile's `loggerConfig`: the rotation list
log, info, warn, error. -/
def jsLoggerConfig : List LogFormat :=
  [jsFormat "log", jsFormat "info", jsFormat "warn", jsFormat "error"]

/-- Tokenize a line with the JavaScript grammar and rotate it with the
JavaScript logger configuration (the composition the extension layer
performs: `magic.rotateLog(magic.tokenize(line.text.trim()), direction)`).
`none` both for the rotator's "not rotatable" sentinel and for
tokenizer/other failures, which the counterexample and round-trip
statements below never hit. -/
def jsRotateStr (s : Str) (dir : Direction) : Option Str :=
  match tokenize jsTokenizerConfig s with
  | Except.error _ => none
  | Except.ok ts =>
    match createLogRotator jsLoggerConfig ts dir with
    | Except.ok o => o
    | Except.error _ => none

/-- Iterated forward rotation on statement text. -/
def jsRotateN : Nat → Str → Option Str
  | 0, s => some s
  | n + 1, s => (jsRotateStr s Direction.fwd).bind (jsRotateN n)

/- ===== claim-side definitions and proof-infrastructure views ===== -/

/-- The log-id selection as the examined claim words it (for comparison
with `getSetDefaultIdFn`): first the first Keyword token whose value is
in the allow-list; if none exists, the first Identifier token; if none
exists, the first String token. -/
def claimPriorityLogId (interestingKeywords : List Str)
    (tokens : List Token) : Option Token :=
  match tokens.find? (fun t =>
      t.type == TokenType.keyword && interestingKeywords.contains t.value) with
  | some t => some t
  | none =>
    match tokens.find? (fun t => t.type == TokenType.identifier) with
    | some t => some t
    | none => tokens.find? (fun t => t.type == TokenType.string)

/-- An alternating chain `t0, s1, t1, s2, t2, ...` of chainable tokens
and separators, encoded by its head and its (separator, token) pairs. -/
def mkChain (t0 : Token) (pairs : List (Token × Token)) : List Token :=
  t0 :: pairs.flatMap (fun p => [p.1, p.2])

/-- A generic-block opening `<` operator token (claim-side shorthand
for the C5 statements). -/
def ltOpTok : Token := { type := TokenType.operator, value := "<".toList }

/-- The matching closing `>` operator token (see `ltOpTok`). -/
def gtOpTok : Token := { type := TokenType.operator, value := ">".toList }

/- ===== theorems ===== -/

/-- The scanning loop of the log-id selection is `List.find?` of the
disjunction of its three token tests. -/
theorem setDefaultIdLoop_eq_find (kws : List Str) (ts : List Token) :
    setDefaultIdLoop kws ts = ts.find? (fun t =>
      (t.type == TokenType.keyword && kws.contains (serializeToken t))
        || t.type == TokenType.identifier || t.type == TokenType.string) := by
  induction ts with
  | nil => rfl
  | cons t ts ih =>
    by_cases hp : (t.type = TokenType.keyword ∧ kws.contains (serializeToken t))
        ∨ t.type = TokenType.identifier ∨ t.type = TokenType.string
    · have hb : ((t.type == TokenType.keyword && kws.contains (serializeToken t))
          || t.type == TokenType.identifier || t.type == TokenType.string) = true := by
        simp only [Bool.or_eq_true, Bool.and_eq_true, beq_iff_eq]
        tauto
      rw [List.find?_cons_of_pos (p := fun t =>
        (t.type == TokenType.keyword && kws.contains (serializeToken t))
          || t.type == TokenType.identifier || t.type == TokenType.string) ts hb]
      unfold setDefaultIdLoop
      rw [if_pos hp]
    · have hb : ¬ ((t.type == TokenType.keyword && kws.contains (serializeToken t))
          || t.type == TokenType.identifier || t.type == TokenType.string) = true := by
        simp only [Bool.or_eq_true, Bool.and_eq_true, beq_iff_eq]
        tauto
      rw [List.find?_cons_of_neg (p := fun t =>
        (t.type == TokenType.keyword && kws.contains (serializeToken t))
          || t.type == TokenType.identifier || t.type == TokenType.string) ts hb]
      unfold setDefaultIdLoop
      rw [if_neg hp]
      exact ih

/-- C7.  The claim says serialization escapes every occurrence of the
quote character inside a String token's value; the code uses JavaScript
`String.replace` with a string pattern, which escapes only the first
occurrence.  Evaluating the code at the failing input `a"b"c` with
quote character `"` yields `"a\"b"c"` — the second quote is left
unescaped (the claim and the spec expect `"a\"b\"c"`); tokens of other
types do serialize to their value text unchanged. -/
theorem c7_quote_escape_first_only :
    quoteString "a\x22b\x22c".toList "\x22".toList = "\x22a\\\x22b\x22c\x22".toList
      ∧ quoteString "a\x22b\x22c".toList "\x22".toList
          ≠ "\x22a\\\x22b\\\x22c\x22".toList
      ∧ serializeToken { type := TokenType.string, value := "a\x22b\x22c".toList }
          "\x22".toList = "\x22a\\\x22b\x22c\x22".toList
      ∧ serializeToken { type := TokenType.identifier, value := "x".toList }
          "\x22".toList = "x".toList
      ∧ serializeToken { type := TokenType.number, value := "12".toList }
          "\x22".toList = "12".toList := by
  refine ⟨by decide, by decide, by decide, by decide, by decide⟩

/-- C3, counterexample.  On the token stream `x` (Identifier), `if`
(Keyword in the allow-list), the code's log-id selection picks the
Identifier `x` (it scans once for the union of the three tests), while
the claimed keyword-first priority picks the Keyword `if`. -/
theorem c3_logid_selection_cex :
    (getSetDefaultIdFn ["if".toList]
        { tokens := [{ type := TokenType.identifier, value := "x".toList },
                     { type := TokenType.keyword, value := "if".toList }],
          logItems := [] }).logId
        = some { type := TokenType.identifier, value := "x".toList }
      ∧ claimPriorityLogId ["if".toList]
          [{ type := TokenType.identifier, value := "x".toList },
           { type := TokenType.keyword, value := "if".toList }]
        = some { type := TokenType.keyword, value := "if".toList }
      ∧ (some { type := TokenType.identifier, value := "x".toList } : Option Token)
          ≠ some { type := TokenType.keyword, value := "if".toList } := by
  refine ⟨by decide, by decide, by decide⟩

/-- C3, amended.  The log-id selection performs a single left-to-right
scan and records (a copy of) the first token that is an allow-listed
Keyword, an Identifier, or a String — a union in stream order, not a
keyword-first priority; when no such token exists the log id is left
as it was (undefined in the pipeline); the token stream itself is never
modified, so the chosen token is not removed. -/
theorem c3_logid_selection_amended (kws : List Str) (r : ParseResult) :
    (getSetDefaultIdFn kws r).tokens = r.tokens
      ∧ (getSetDefaultIdFn kws r).logItems = r.logItems
      ∧ (getSetDefaultIdFn kws r).logId =
          (match r.tokens.find? (fun t =>
              (t.type == TokenType.keyword && kws.contains (serializeToken t))
                || t.type == TokenType.identifier
                || t.type == TokenType.string) with
           | some t => some t
           | none => r.logId) := by
  unfold getSetDefaultIdFn
  rw [setDefaultIdLoop_eq_find]
  cases r.tokens.find? (fun t =>
      (t.type == TokenType.keyword && kws.contains (serializeToken t))
        || t.type == TokenType.identifier || t.type == TokenType.string) with
  | none => exact ⟨rfl, rfl, rfl⟩
  | some t => exact ⟨rfl, rfl, rfl⟩

/-- C9.  The logger's `log` returns a statement string exactly when a
LogFormat is supplied — either as the argument or on the ParseResult —
and throws the fatal construction error exactly when neither is
present. -/
theorem c9_log_requires_format (pr : ParseResult) (fm : Option LogFormat) :
    ((log pr fm).isOk ↔ (fm.isSome ∨ pr.logFormat.isSome))
      ∧ (log pr fm = Except.error logNeedsFormatMsg
          ↔ (fm = none ∧ pr.logFormat = none)) := by
  cases fm with
  | some f => simp [log, Except.isOk, Except.toBool]
  | none =>
    cases h : pr.logFormat with
    | some f => simp [log, h, Option.orElse, Except.isOk, Except.toBool]
    | none => simp [log, h, Option.orElse, Except.isOk, Except.toBool]

/-- C5, counterexample.  On the token stream `x < a + b >` the
TypeScript `removeGenerics` step removes the complete angle-bracket
block even though its interior contains the operator `+` (neither an
Identifier nor a comma): the block contains no `&&`/`||`, which is the
only contents restriction that step applies.  This refutes the claimed
"every token strictly inside is an Identifier or a comma" necessary
condition for removal. -/
theorem c5_generic_strip_cex :
    (tsRemoveGenerics
        { tokens := [{ type := TokenType.identifier, value := "x".toList },
                     { type := TokenType.operator, value := "<".toList },
                     { type := TokenType.identifier, value := "a".toList },
                     { type := TokenType.operator, value := "+".toList },
                     { type := TokenType.identifier, value := "b".toList },
                     { type := TokenType.operator, value := ">".toList }],
          logItems := [] }).tokens
        = [{ type := TokenType.identifier, value := "x".toList }]
      ∧ isCompleteCodeBlock (getCodeBlockAt
          [{ type := TokenType.identifier, value := "x".toList },
           { type := TokenType.operator, value := "<".toList },
           { type := TokenType.identifier, value := "a".toList },
           { type := TokenType.operator, value := "+".toList },
           { type := TokenType.identifier, value := "b".toList },
           { type := TokenType.operator, value := ">".toList }]
          1 Direction.fwd PARENS_EXT) = true
      ∧ blockInnerOk (getCodeBlockAt
          [{ type := TokenType.identifier, value := "x".toList },
           { type := TokenType.operator, value := "<".toList },
           { type := TokenType.identifier, value := "a".toList },
           { type := TokenType.operator, value := "+".toList },
           { type := TokenType.identifier, value := "b".toList },
           { type := TokenType.operator, value := ">".toList }]
          1 Direction.fwd PARENS_EXT) = false := by
  refine ⟨by decide, by decide, by decide⟩

/-- C1, counterexample.  Fresh creation: the logger renders the parse
result with log id `foo` and single item `foo` under the first
JavaScript format as `console.log('foo:', foo);` (the id is suppressed
because it duplicates the first item's key).  The rotator recognizes
that statement (it returns a rotated statement, not the null sentinel),
but recovers the log id as a String token, which the logger then
re-renders as an extra leading `'foo'` parameter: rotating forward
N = 4 times (the configured format count) yields
`console.log('foo', 'foo:', foo);`, not the original statement, and
rotating forward once then backward once yields the same changed
statement — both halves of the claimed round-trip fail. -/
theorem c1_rotation_cycle_cex :
    log { tokens := [], logItems := [[{ type := TokenType.identifier, value := "foo".toList }]],
          logId := some { type := TokenType.identifier, value := "foo".toList } }
        (some (jsFormat "log"))
      = Except.ok "console.log('foo:', foo);".toList
    ∧ jsLoggerConfig.length = 4
    ∧ jsRotateStr "console.log('foo:', foo);".toList Direction.fwd
        = some "console.info('foo', 'foo:', foo);".toList
    ∧ jsRotateN 4 "console.log('foo:', foo);".toList
        = some "console.log('foo', 'foo:', foo);".toList
    ∧ "console.log('foo', 'foo:', foo);".toList
        ≠ "console.log('foo:', foo);".toList
    ∧ ((jsRotateStr "console.log('foo:', foo);".toList Direction.fwd).bind
        (fun s => jsRotateStr s Direction.bwd))
        = some "console.log('foo', 'foo:', foo);".toList := by
  refine ⟨rfl, by decide, rfl, rfl, by decide, rfl⟩

/-- C1, amended.  The round-trip holds for rotated statements that
carry no recovered log id (no leading String parameter): for the
JavaScript LoggerConfig (N = 4 formats) the statement
`console.log(123);` rotates forward through `console.info(123);` and
returns to itself after 4 forward rotations, and rotating it forward
once then backward once is the identity.  When the rotator recovers a
log id (the statement's first parameter is a String, as in any freshly
created statement with a log id), re-rendering prepends the recovered
id as an extra parameter and the round-trip fails (see the
counterexample); the in-source rotator also only rotates forward — the
backward direction its callers request is modelled from the spec. -/
theorem c1_rotation_cycle_amended :
    jsLoggerConfig.length = 4
    ∧ jsRotateStr "console.log(123);".toList Direction.fwd
        = some "console.info(123);".toList
    ∧ jsRotateN 4 "console.log(123);".toList = some "console.log(123);".toList
    ∧ ((jsRotateStr "console.log(123);".toList Direction.fwd).bind
        (fun s => jsRotateStr s Direction.bwd))
        = some "console.log(123);".toList
    ∧ jsRotateN 4 "console.info(123);".toList = some "console.info(123);".toList
    ∧ ((jsRotateStr "console.error(123);".toList Direction.fwd))
        = some "console.log(123);".toList := by
  refine ⟨by decide, rfl, rfl, rfl, rfl, rfl⟩

/-- The format-detection loop throws its ParseError when no configured
format's log head matches the start of the token stream. -/
theorem detectGo_error_of_no_match (tokens : List Token) (st : RotState)
    (hst : st.pr.tokens = tokens) :
    ∀ (fs : List LogFormat) (i : Nat),
      (∀ f ∈ fs, getMatchingTokens tokens f.logHead 0 Direction.fwd = []) →
      detectLogFormatStep.go fs i st
        = Except.error (RotErr.parseErr noFormatFoundMsg)
  | [], _, _ => rfl
  | f :: fs, i, h => by
    have hf : getMatchingTokens st.pr.tokens f.logHead 0 Direction.fwd = [] := by
      rw [hst]; exact h f (List.mem_cons_self f fs)
    unfold detectLogFormatStep.go
    rw [hf]
    simpa using detectGo_error_of_no_match tokens st hst fs (i + 1)
      (fun g hg => h g (List.mem_cons_of_mem f hg))

/-- C2.  When no configured LogFormat's log head fuzzy-matches the
start of the token stream, the rotator returns the null sentinel — not
an exception: format detection is the first pipeline step, its
ParseError is caught and turned into `none`.  Any error that is not a
ParseError escapes the catch unchanged (stated for an arbitrary step
pipeline, since the concrete steps only ever throw ParseError). -/
theorem c2_rotator_null_on_no_match :
    (∀ (config : List LogFormat) (tokens : List Token) (dir : Direction),
      (∀ f ∈ config, getMatchingTokens tokens f.logHead 0 Direction.fwd = []) →
      createLogRotator config tokens dir = Except.ok none)
    ∧ (∀ (steps : List RotStep) (config : List LogFormat) (dir : Direction)
        (tokens : List Token) (e : Str),
      runSteps steps { pr := { tokens := tokens, logItems := [] } }
          = Except.error (RotErr.other e) →
      rotatorRun steps config dir tokens = Except.error (RotErr.other e)) := by
  constructor
  · intro config tokens dir h
    have hdet : detectLogFormatStep config
          { pr := { tokens := tokens, logItems := [] } }
        = Except.error (RotErr.parseErr noFormatFoundMsg) := by
      show detectLogFormatStep.go config 0 _ = _
      exact detectGo_error_of_no_match tokens _ rfl config 0 h
    show rotatorRun (rotatorSteps config) config dir tokens = Except.ok none
    unfold rotatorRun rotatorSteps runSteps
    rw [hdet]
  · intro steps config dir tokens e h
    unfold rotatorRun
    rw [h]

/-- C2, witness.  The JavaScript configuration does not recognize
`somethingElse(123);` (no `console.*(` head matches), so the rotator
returns the null sentinel on its token stream; and a pipeline step
throwing a non-ParseError propagates it unchanged. -/
theorem c2_rotator_null_on_no_match_witness :
    createLogRotator jsLoggerConfig
      [{ type := TokenType.identifier, value := "somethingElse".toList },
       { type := TokenType.punctuation, value := "(".toList },
       { type := TokenType.number, value := "123".toList },
       { type := TokenType.punctuation, value := ")".toList },
       { type := TokenType.punctuation, value := ";".toList }]
      Direction.fwd = Except.ok none
    ∧ rotatorRun [fun _ => Except.error (RotErr.other "boom".toList)]
        jsLoggerConfig Direction.fwd []
      = Except.error (RotErr.other "boom".toList) := by
  constructor
  · exact c2_rotator_null_on_no_match.1 jsLoggerConfig _ Direction.fwd (by decide)
  · exact c2_rotator_null_on_no_match.2 _ jsLoggerConfig Direction.fwd [] _ rfl

/-- With enough fuel (the caller passes `input.length + 1`), the
`readWhile` loop reads exactly the maximal satisfying run at the caret
and advances the caret past it. -/
theorem readWhileAux_spec (p : Char → Bool) (input : Str) :
    ∀ (fuel i : Nat), input.length ≤ i + fuel →
      readWhileAux p input fuel i
        = ((input.drop i).takeWhile p,
           i + ((input.drop i).takeWhile p).length) := by
  intro fuel
  induction fuel with
  | zero =>
    intro i h
    rw [Nat.add_zero] at h
    simp [readWhileAux, List.drop_of_length_le h]
  | succ fuel ih =>
    intro i h
    cases hget : input[i]? with
    | none =>
      have hlen : input.length ≤ i := by
        by_contra hc
        have hsome : input[i]? = some input[i] :=
          List.getElem?_eq_getElem (by omega)
        rw [hget] at hsome
        exact Option.noConfusion hsome
      simp [readWhileAux, hget, List.drop_of_length_le hlen]
    | some c =>
      have hlt : i < input.length := by
        by_contra hc
        rw [List.getElem?_eq_none (by omega)] at hget
        exact Option.noConfusion hget
      have hdrop : input.drop i = c :: input.drop (i + 1) := by
        have hce : input[i] = c := by
          have hsome := List.getElem?_eq_getElem hlt
          rw [hget] at hsome
          exact (Option.some.inj hsome).symm
        rw [List.drop_eq_getElem_cons hlt, hce]
      have hrec := ih (i + 1) (by omega)
      cases hp : p c with
      | true =>
        simp only [readWhileAux, List.get?_eq_getElem?, hget]
        rw [if_pos hp, hrec, hdrop, List.takeWhile_cons_of_pos hp]
        simp only [List.length_cons, Prod.mk.injEq]
        exact ⟨trivial, by omega⟩
      | false =>
        have hneg : ¬ p c = true := by simp [hp]
        simp only [readWhileAux, List.get?_eq_getElem?, hget]
        rw [if_neg hneg, hdrop, List.takeWhile_cons_of_neg hneg]
        simp

/-- The maximal run found by `takeWhile` cannot be extended: the
element right after it, when it exists, fails the test. -/
theorem get?_after_takeWhile (p : Char → Bool) (l : Str) :
    (l.get? (l.takeWhile p).length).all (fun c => ! p c) = true := by
  induction l with
  | nil => rfl
  | cons c cs ih =>
    cases hp : p c with
    | true =>
      rw [List.takeWhile_cons_of_pos hp]
      simpa using ih
    | false =>
      rw [List.takeWhile_cons_of_neg (by simp [hp])]
      simp [hp]

/-- C6.  The tokenizer's number reader consumes exactly the maximal run
of decimal digits at the caret — every consumed character is a digit,
so no decimal point, exponent, base prefix, digit separator or suffix
is taken, and the character right after the consumed run (when any) is
not a digit.  The full literals `0x1F`, `1_000`, `2.5e-3` and `10UL`
therefore tokenize to two or more tokens, none carrying the whole
literal, and collapse to a single Number token carrying the whole
literal only through the regular-expression recombination parse steps
(hex first, then the general numeric expression, as the C# parse
sequence orders them). -/
theorem c6_number_reader_digits_only :
    (∀ (input : Str) (i : Nat),
      readNumber input i
        = ({ type := TokenType.number,
             value := (input.drop i).takeWhile isDigitChar },
           i + ((input.drop i).takeWhile isDigitChar).length)
      ∧ (input.get? (i + ((input.drop i).takeWhile isDigitChar).length)).all
          (fun c => ! isDigitChar c) = true
      ∧ ∀ c ∈ (readNumber input i).1.value, isDigitChar c = true)
    ∧ tokenize csTokenizerConfig "0x1F".toList
        = Except.ok [{ type := TokenType.number, value := "0".toList },
                     { type := TokenType.identifier, value := "x1F".toList }]
    ∧ (getCombineMatchingTokens TokenType.number csNumberRe []
        (getCombineMatchingTokens TokenType.number csHexRe []
          { tokens := [{ type := TokenType.number, value := "0".toList },
                       { type := TokenType.identifier, value := "x1F".toList }],
            logItems := [] })).tokens
        = [{ type := TokenType.number, value := "0x1F".toList }]
    ∧ tokenize csTokenizerConfig "1_000".toList
        = Except.ok [{ type := TokenType.number, value := "1".toList },
                     { type := TokenType.identifier, value := "_000".toList }]
    ∧ (getCombineMatchingTokens TokenType.number csNumberRe []
        (getCombineMatchingTokens TokenType.number csHexRe []
          { tokens := [{ type := TokenType.number, value := "1".toList },
                       { type := TokenType.identifier, value := "_000".toList }],
            logItems := [] })).tokens
        = [{ type := TokenType.number, value := "1_000".toList }]
    ∧ tokenize csTokenizerConfig "2.5e-3".toList
        = Except.ok [{ type := TokenType.number, value := "2".toList },
                     { type := TokenType.punctuation, value := ".".toList },
                     { type := TokenType.number, value := "5".toList },
                     { type := TokenType.identifier, value := "e".toList },
                     { type := TokenType.operator, value := "-".toList },
                     { type := TokenType.number, value := "3".toList }]
    ∧ (getCombineMatchingTokens TokenType.number csNumberRe []
        (getCombineMatchingTokens TokenType.number csHexRe []
          { tokens := [{ type := TokenType.number, value := "2".toList },
                       { type := TokenType.punctuation, value := ".".toList },
                       { type := TokenType.number, value := "5".toList },
                       { type := TokenType.identifier, value := "e".toList },
                       { type := TokenType.operator, value := "-".toList },
                       { type := TokenType.number, value := "3".toList }],
            logItems := [] })).tokens
        = [{ type := TokenType.number, value := "2.5e-3".toList }]
    ∧ tokenize csTokenizerConfig "10UL".toList
        = Except.ok [{ type := TokenType.number, value := "10".toList },
                     { type := TokenType.identifier, value := "UL".toList }]
    ∧ (getCombineMatchingTokens TokenType.number csNumberRe []
        (getCombineMatchingTokens TokenType.number csHexRe []
          { tokens := [{ type := TokenType.number, value := "10".toList },
                       { type := TokenType.identifier, value := "UL".toList }],
            logItems := [] })).tokens
        = [{ type := TokenType.number, value := "10UL".toList }] := by
  refine ⟨?_, rfl, rfl, rfl, rfl, rfl, rfl, rfl, rfl⟩
  intro input i
  have hspec := readWhileAux_spec isDigitChar input (input.length + 1) i (by omega)
  have hread : readNumber input i
      = ({ type := TokenType.number,
           value := (input.drop i).takeWhile isDigitChar },
         i + ((input.drop i).takeWhile isDigitChar).length) := by
    unfold readNumber readWhile
    rw [hspec]
  refine ⟨hread, ?_, ?_⟩
  · rw [List.get?_eq_getElem?, ← List.getElem?_drop]
    rw [← List.get?_eq_getElem?]
    exact get?_after_takeWhile isDigitChar (input.drop i)
  · intro c hc
    rw [hread] at hc
    exact List.mem_takeWhile_imp hc

/-- C4.  Whenever the scanning loop's caret sits on a character that
matches none of the tokenizer's readers — not whitespace, not a
single- or multi-line comment start, not a digit, operator character,
punctuation character, string delimiter, or identifier-start
character — the tokenizer throws the fatal error naming the unparsable
fragment, and no token array is returned for the line (the whole-line
entry point `tokenize` starts that loop at caret 0). -/
theorem c4_tokenizer_bad_char_error :
    (∀ (conf : TokenizerConfig) (input : Str) (i : Nat) (c : Char) (fuel : Nat),
      input.get? i = some c →
      tokenizerBadCharAt conf input i c →
      tokenizeLoop conf input (fuel + 1) i
        = Except.error (tokenizeErrMsg input i))
    ∧ (∀ (conf : TokenizerConfig) (input : Str) (c : Char),
      input.get? 0 = some c →
      tokenizerBadCharAt conf input 0 c →
      tokenize conf input = Except.error (tokenizeErrMsg input 0)) := by
  have hloop : ∀ (conf : TokenizerConfig) (input : Str) (i : Nat) (c : Char)
      (fuel : Nat), input.get? i = some c →
      tokenizerBadCharAt conf input i c →
      tokenizeLoop conf input (fuel + 1) i
        = Except.error (tokenizeErrMsg input i) := by
    intro conf input i c fuel hget hbad
    simp only [tokenizerBadCharAt, Bool.not_eq_true] at hbad
    obtain ⟨h1, h2, h3, h4, h5, h6, h7, h8⟩ := hbad
    have hget' : input[i]? = some c := by
      rw [← List.get?_eq_getElem?]; exact hget
    have h5' : ¬ c ∈ conf.OPERATOR := by simpa using h5
    have h6' : ¬ c ∈ conf.PUNCTUATION := by simpa using h6
    have h7' : ¬ c ∈ conf.STRING_DELIM := by simpa using h7
    have h8' : ¬ c ∈ conf.IDENTIFIER_START := by simpa using h8
    simp [tokenizeLoop, hget', h1, h2, h3, h4, h5', h6', h7', h8']
  exact ⟨hloop, fun conf input c hget hbad =>
    hloop conf input 0 c 9998 hget hbad⟩

/-- C4, witness.  Under the JavaScript grammar the section-sign
character matches no reader, so tokenizing the line `§` fails with the
error that names the fragment. -/
theorem c4_tokenizer_bad_char_error_witness :
    tokenize jsTokenizerConfig "§".toList
      = Except.error (tokenizeErrMsg "§".toList 0) := by
  exact c4_tokenizer_bad_char_error.2 jsTokenizerConfig "§".toList '§'
    (by decide) (by decide)

/-- An alternating tail of (separator, chainable-token) pairs, with an
optional final lone separator, is consumed whole by the greedy chain
collection when entered at an odd chain position. -/
theorem greedyChain_flat (TC : List TokenType) (S : List Str) :
    ∀ (pairs : List (Token × Token)) (k : Nat), k % 2 = 1 →
      (∀ p ∈ pairs, S.contains (serializeToken p.1) = true
        ∧ TC.contains p.2.type = true) →
      ∀ (tail : List Token),
        (tail = [] ∨ ∃ sep, tail = [sep]
          ∧ S.contains (serializeToken sep) = true) →
      greedyChain TC S (pairs.flatMap (fun p => [p.1, p.2]) ++ tail) k
        = pairs.flatMap (fun p => [p.1, p.2]) ++ tail := by
  intro pairs
  induction pairs with
  | nil =>
    intro k hk _ tail htail
    rcases htail with rfl | ⟨sep, rfl, hsep⟩
    · rfl
    · show greedyChain TC S ([] ++ [sep]) k = [] ++ [sep]
      simp only [List.nil_append]
      unfold greedyChain
      rw [if_neg (show ¬ k % 2 = 0 by omega), hsep]
      simp [greedyChain]
  | cons p ps ih =>
    intro k hk hp tail htail
    have hflat : (p :: ps).flatMap (fun q => [q.1, q.2]) ++ tail
        = p.1 :: p.2 :: (ps.flatMap (fun q => [q.1, q.2]) ++ tail) := by
      simp
    rw [hflat]
    have h1 := (hp p (List.mem_cons_self p ps)).1
    have h2 := (hp p (List.mem_cons_self p ps)).2
    show greedyChain TC S (p.1 :: p.2 :: (ps.flatMap (fun q => [q.1, q.2]) ++ tail)) k = _
    unfold greedyChain
    rw [if_neg (by omega : ¬ k % 2 = 0), h1]
    simp only [if_true]
    unfold greedyChain
    rw [if_pos (by omega : (k + 1) % 2 = 0), h2]
    simp only [if_true]
    rw [ih (k + 2) (by omega) (fun q hq => hp q (List.mem_cons_of_mem p hq)) tail htail]

/-- The greedy chain collection started at position 0 consumes a whole
alternating chain (with an optional trailing separator). -/
theorem greedyChain_mkChain (TC : List TokenType) (S : List Str)
    (t0 : Token) (pairs : List (Token × Token)) (tail : List Token)
    (h0 : TC.contains t0.type = true)
    (hp : ∀ p ∈ pairs, S.contains (serializeToken p.1) = true
      ∧ TC.contains p.2.type = true)
    (htail : tail = [] ∨ ∃ sep, tail = [sep]
      ∧ S.contains (serializeToken sep) = true) :
    greedyChain TC S (mkChain t0 pairs ++ tail) 0 = mkChain t0 pairs ++ tail := by
  show greedyChain TC S (t0 :: (pairs.flatMap (fun p => [p.1, p.2]) ++ tail)) 0
      = t0 :: (pairs.flatMap (fun p => [p.1, p.2]) ++ tail)
  unfold greedyChain
  rw [if_pos (by omega : 0 % 2 = 0), h0]
  simp only [if_true]
  rw [greedyChain_flat TC S pairs 1 (by omega) hp tail htail]

/-- The loop of the chain-combination step is the identity once the
index passes the end of the token array. -/
theorem combineChainLoop_done (TC : List TokenType) (nT : TokenType)
    (S P Sf : List Str) :
    ∀ (tokens : List Token) (i fuel : Nat), tokens.length ≤ i →
      combineChainLoop TC nT S P Sf tokens i fuel = tokens := by
  intro tokens i fuel h
  cases fuel with
  | zero => rfl
  | succ fuel =>
    unfold combineChainLoop
    rw [if_neg (by omega)]

/-- The last token of an alternating chain is its head or the chainable
component of one of its pairs. -/
theorem mkChain_getLast?_cases :
    ∀ (pairs : List (Token × Token)) (t0 : Token),
      ∃ x, (mkChain t0 pairs).getLast? = some x
        ∧ (x = t0 ∨ ∃ p ∈ pairs, x = p.2) := by
  intro pairs
  induction pairs with
  | nil => intro t0; exact ⟨t0, rfl, Or.inl rfl⟩
  | cons p ps ih =>
    intro t0
    obtain ⟨x, hx, hmem⟩ := ih p.2
    refine ⟨x, ?_, ?_⟩
    · have hsplit : mkChain t0 (p :: ps) = t0 :: p.1 :: mkChain p.2 ps := by
        simp [mkChain]
      rw [hsplit, List.getLast?_cons_cons,
        show mkChain p.2 ps = p.2 :: ps.flatMap (fun q => [q.1, q.2]) from rfl,
        List.getLast?_cons_cons]
      exact hx
    · rcases hmem with rfl | ⟨q, hq, rfl⟩
      · exact Or.inr ⟨p, List.mem_cons_self p ps, rfl⟩
      · exact Or.inr ⟨q, List.mem_cons_of_mem p hq, rfl⟩

/-- Splicing away the merged run: keeping the head and removing the
next `l.length` elements leaves the head and the tail. -/
theorem spliceRemove_head (x : Token) (l tail : List Token) :
    spliceRemove (x :: (l ++ tail)) 1 l.length = x :: tail := by
  unfold spliceRemove
  rw [show (1 : Nat) + l.length = l.length + 1 from by omega]
  simp [List.drop_left]

/-- The length of an alternating chain. -/
theorem mkChain_length (t0 : Token) (pairs : List (Token × Token)) :
    (mkChain t0 pairs).length = 1 + 2 * pairs.length := by
  induction pairs generalizing t0 with
  | nil => rfl
  | cons p ps ih =>
    have hsplit : mkChain t0 (p :: ps) = t0 :: p.1 :: mkChain p.2 ps := by
      simp [mkChain]
    rw [hsplit]
    simp only [List.length_cons, ih p.2]
    omega

/-- One merge iteration of the chain-combination loop at index 0, with
no configured prefixes or suffixes: when the greedy collection consumes
the whole array, the run does not end on a separator and has at least
two tokens, the array collapses to the single merged token followed by
whatever the greedy collection did not reach (nothing here, since it
consumed everything). -/
theorem combineChainLoop_merge_all (TC : List TokenType) (nT : TokenType)
    (S : List Str) (t0 : Token) (rest : List Token) (fuel : Nat)
    (hgreedy : greedyChain TC S (t0 :: rest) 0 = t0 :: rest)
    (x : Token) (hlast : (t0 :: rest).getLast? = some x)
    (hxs : S.contains (serializeToken x) = false)
    (h2 : 2 ≤ (t0 :: rest).length) :
    combineChainLoop TC nT S [] [] (t0 :: rest) 0 (fuel + 1)
      = combineChainLoop TC nT S [] []
          [{ type := nT, value := serializeTokens (t0 :: rest) }] 1 fuel := by
  conv_lhs => rw [combineChainLoop]
  rw [if_pos (by simp : 0 < (t0 :: rest).length)]
  simp only [firstNonEmptyMatch, List.length_nil, Nat.add_zero, Nat.zero_add,
    List.drop_zero, hgreedy, hlast]
  rw [if_neg (show ¬ (S.contains (serializeToken x) = true) from by
    rw [hxs]; exact Bool.false_ne_true)]
  rw [if_neg (show ¬ (t0 :: rest).length < 2 from by omega)]
  have hsplice : spliceRemove
      ((t0 :: rest).set 0 { type := nT, value := serializeTokens ([] ++ (t0 :: rest) ++ []) }) 1
      ((t0 :: rest).length - 1)
      = [{ type := nT, value := serializeTokens ([] ++ (t0 :: rest) ++ []) }] := by
    rw [List.set_cons_zero]
    have hl : (t0 :: rest).length - 1 = rest.length := by
      simp only [List.length_cons]; omega
    rw [hl]
    have hs := spliceRemove_head
      { type := nT, value := serializeTokens ([] ++ (t0 :: rest) ++ []) } rest []
    simpa using hs
  simp only [List.nil_append, List.append_nil] at hsplice ⊢
  rw [hsplice]

/-- One merge iteration at index 0 when the greedy collection consumes
the whole array but the run ends on a separator: the trailing separator
is popped before merging and stays behind the merged token. -/
theorem combineChainLoop_merge_sep (TC : List TokenType) (nT : TokenType)
    (S : List Str) (t0 : Token) (rest : List Token) (sep' : Token) (fuel : Nat)
    (hgreedy : greedyChain TC S (t0 :: (rest ++ [sep'])) 0
      = t0 :: (rest ++ [sep']))
    (hsep : S.contains (serializeToken sep') = true)
    (h2 : 2 ≤ (t0 :: rest).length) :
    combineChainLoop TC nT S [] [] (t0 :: (rest ++ [sep'])) 0 (fuel + 1)
      = combineChainLoop TC nT S [] []
          [{ type := nT, value := serializeTokens (t0 :: rest) }, sep'] 1 fuel := by
  conv_lhs => rw [combineChainLoop]
  rw [if_pos (by simp : 0 < (t0 :: (rest ++ [sep'])).length)]
  have hlast : (t0 :: (rest ++ [sep'])).getLast? = some sep' := by
    rw [show t0 :: (rest ++ [sep']) = (t0 :: rest) ++ [sep'] from rfl]
    exact List.getLast?_concat _
  simp only [firstNonEmptyMatch, List.length_nil, Nat.add_zero, Nat.zero_add,
    List.drop_zero, hgreedy, hlast]
  rw [if_pos hsep]
  have hdrop : (t0 :: (rest ++ [sep'])).dropLast = t0 :: rest := by
    rw [show t0 :: (rest ++ [sep']) = (t0 :: rest) ++ [sep'] from rfl]
    exact List.dropLast_concat
  rw [hdrop]
  rw [if_neg (show ¬ (t0 :: rest).length < 2 from by omega)]
  have hsplice : spliceRemove
      ((t0 :: (rest ++ [sep'])).set 0
        { type := nT, value := serializeTokens ([] ++ (t0 :: rest) ++ []) }) 1
      ((t0 :: rest).length - 1)
      = [{ type := nT, value := serializeTokens ([] ++ (t0 :: rest) ++ []) }, sep'] := by
    rw [List.set_cons_zero]
    have hl : (t0 :: rest).length - 1 = rest.length := by
      simp only [List.length_cons]; omega
    rw [hl]
    exact spliceRemove_head _ rest [sep']
  simp only [List.nil_append, List.append_nil] at hsplice ⊢
  rw [hsplice]

/-- After a merge, the loop continues past the merged token; a final
lone separator (whose type is not chainable) is left untouched. -/
theorem combineChainLoop_two_done (TC : List TokenType) (nT : TokenType)
    (S : List Str) (m sep' : Token) (fuel : Nat)
    (hsepT : TC.contains sep'.type = false) :
    combineChainLoop TC nT S [] [] [m, sep'] 1 (fuel + 1) = [m, sep'] := by
  conv_lhs => rw [combineChainLoop]
  rw [if_pos (by simp : 1 < ([m, sep'] : List Token).length)]
  have hchain : greedyChain TC S (([m, sep'] : List Token).drop 1) 0 = [] := by
    show greedyChain TC S [sep'] 0 = []
    unfold greedyChain
    rw [if_pos (show (0 : Nat) % 2 = 0 from rfl), hsepT]
    simp
  simp only [firstNonEmptyMatch, List.length_nil, Nat.add_zero, Nat.zero_add,
    hchain, List.getLast?_nil]
  rw [if_pos (show (0 : Nat) < 2 from by omega)]
  exact combineChainLoop_done TC nT S [] [] [m, sep'] (1 + 1) fuel (by simp)

/-- A single chainable token is left untouched (a chain needs at least
two chained tokens). -/
theorem combineChainLoop_single (TC : List TokenType) (nT : TokenType)
    (S : List Str) (t0 : Token) (fuel : Nat)
    (h0t : TC.contains t0.type = true)
    (h0s : S.contains (serializeToken t0) = false) :
    combineChainLoop TC nT S [] [] [t0] 0 (fuel + 1) = [t0] := by
  conv_lhs => rw [combineChainLoop]
  rw [if_pos (by simp : 0 < ([t0] : List Token).length)]
  have hchain : greedyChain TC S (([t0] : List Token).drop 0) 0 = [t0] := by
    show greedyChain TC S [t0] 0 = [t0]
    unfold greedyChain
    rw [if_pos (show (0 : Nat) % 2 = 0 from rfl), h0t]
    simp [greedyChain]
  simp only [firstNonEmptyMatch, List.length_nil, Nat.add_zero, Nat.zero_add,
    hchain, show ([t0] : List Token).getLast? = some t0 from rfl]
  rw [if_neg (show ¬ (S.contains (serializeToken t0) = true) from by
    rw [h0s]; exact Bool.false_ne_true)]
  rw [if_pos (show ([t0] : List Token).length < 2 from by simp)]
  exact combineChainLoop_done TC nT S [] [] [t0] 1 fuel (by simp)

/-- A chainable token followed by a lone separator is left untouched:
the trailing separator is popped, leaving a one-token chain, which is
below the merge threshold. -/
theorem combineChainLoop_short_pair (TC : List TokenType) (nT : TokenType)
    (S : List Str) (t0 sep' : Token) (fuel : Nat)
    (h0t : TC.contains t0.type = true)
    (h0s : S.contains (serializeToken t0) = false)
    (hsep : S.contains (serializeToken sep') = true)
    (hsepT : TC.contains sep'.type = false) :
    combineChainLoop TC nT S [] [] [t0, sep'] 0 (fuel + 2) = [t0, sep'] := by
  conv_lhs => rw [combineChainLoop]
  rw [if_pos (by simp : 0 < ([t0, sep'] : List Token).length)]
  have hchain : greedyChain TC S (([t0, sep'] : List Token).drop 0) 0
      = [t0, sep'] := by
    show greedyChain TC S [t0, sep'] 0 = [t0, sep']
    unfold greedyChain
    rw [if_pos (show (0 : Nat) % 2 = 0 from rfl), h0t]
    simp only [if_true]
    unfold greedyChain
    rw [if_neg (show ¬ (1 : Nat) % 2 = 0 from by omega), hsep]
    simp [greedyChain]
  simp only [firstNonEmptyMatch, List.length_nil, Nat.add_zero, Nat.zero_add,
    hchain, show ([t0, sep'] : List Token).getLast? = some sep' from rfl]
  rw [if_pos hsep]
  rw [show ([t0, sep'] : List Token).dropLast = [t0] from rfl]
  rw [if_pos (show ([t0] : List Token).length < 2 from by simp)]
  exact combineChainLoop_two_done TC nT S t0 sep' fuel hsepT

/-- C8.  With no configured prefixes/suffixes (how the language
profiles invoke the step), the chain-combination step merges a maximal
alternating run of chainable tokens and allowed single-token separators
— at least two chained tokens, i.e. run length at least 3 — into
exactly one token of the new type (Identifier in the profiles) whose
value is the concatenated serialized text of the run; a run ending on a
separator has that trailing separator excluded from the merge and left
in the stream; runs with fewer than two chained tokens (a lone token,
or a token followed by a separator) are left untouched. -/
theorem c8_chain_combination (TC : List TokenType) (S : List Str)
    (t0 sep' : Token) (pairs : List (Token × Token))
    (items : List (List Token)) (id? : Option Token) (fmt? : Option LogFormat)
    (h0t : TC.contains t0.type = true)
    (h0s : S.contains (serializeToken t0) = false)
    (hp : ∀ p ∈ pairs, S.contains (serializeToken p.1) = true
      ∧ TC.contains p.2.type = true ∧ S.contains (serializeToken p.2) = false)
    (hne : pairs ≠ [])
    (hsep : S.contains (serializeToken sep') = true)
    (hsepT : TC.contains sep'.type = false) :
    3 ≤ (mkChain t0 pairs).length
    ∧ (getCombineConsecutiveTokensOfTypeFn TC TokenType.identifier S [] []
        { tokens := mkChain t0 pairs, logItems := items,
          logId := id?, logFormat := fmt? }).tokens
      = [{ type := TokenType.identifier,
           value := serializeTokens (mkChain t0 pairs) }]
    ∧ (getCombineConsecutiveTokensOfTypeFn TC TokenType.identifier S [] []
        { tokens := mkChain t0 pairs ++ [sep'], logItems := items,
          logId := id?, logFormat := fmt? }).tokens
      = [{ type := TokenType.identifier,
           value := serializeTokens (mkChain t0 pairs) }, sep']
    ∧ (getCombineConsecutiveTokensOfTypeFn TC TokenType.identifier S [] []
        { tokens := [t0], logItems := items,
          logId := id?, logFormat := fmt? }).tokens = [t0]
    ∧ (getCombineConsecutiveTokensOfTypeFn TC TokenType.identifier S [] []
        { tokens := [t0, sep'], logItems := items,
          logId := id?, logFormat := fmt? }).tokens = [t0, sep'] := by
  have hlen3 : 3 ≤ (mkChain t0 pairs).length := by
    rw [mkChain_length]
    have : 1 ≤ pairs.length := by
      cases pairs with
      | nil => exact absurd rfl hne
      | cons p ps => simp
    omega
  have hg : greedyChain TC S (mkChain t0 pairs) 0 = mkChain t0 pairs := by
    have := greedyChain_mkChain TC S t0 pairs [] h0t
      (fun p hpm => ⟨(hp p hpm).1, (hp p hpm).2.1⟩) (Or.inl rfl)
    simpa using this
  obtain ⟨x, hlast, hxmem⟩ := mkChain_getLast?_cases pairs t0
  have hxs : S.contains (serializeToken x) = false := by
    rcases hxmem with rfl | ⟨p, hpmem, rfl⟩
    · exact h0s
    · exact (hp p hpmem).2.2
  refine ⟨hlen3, ?_, ?_, ?_, ?_⟩
  · show combineChainLoop TC TokenType.identifier S [] []
        (mkChain t0 pairs) 0 ((mkChain t0 pairs).length + 1)
      = [{ type := TokenType.identifier,
           value := serializeTokens (mkChain t0 pairs) }]
    have hstep := combineChainLoop_merge_all TC TokenType.identifier S t0
      (pairs.flatMap (fun p => [p.1, p.2])) ((mkChain t0 pairs).length)
      hg x hlast hxs (by
        have h3 := hlen3
        rw [show (mkChain t0 pairs : List Token)
          = t0 :: pairs.flatMap (fun p => [p.1, p.2]) from rfl] at h3
        omega)
    rw [show (mkChain t0 pairs : List Token)
        = t0 :: pairs.flatMap (fun p => [p.1, p.2]) from rfl] at *
    rw [hstep]
    exact combineChainLoop_done _ _ _ _ _ _ 1 _ (by simp)
  · show combineChainLoop TC TokenType.identifier S [] []
        (mkChain t0 pairs ++ [sep']) 0 ((mkChain t0 pairs ++ [sep']).length + 1)
      = [{ type := TokenType.identifier,
           value := serializeTokens (mkChain t0 pairs) }, sep']
    have hg2 : greedyChain TC S
        (t0 :: (pairs.flatMap (fun p => [p.1, p.2]) ++ [sep'])) 0
        = t0 :: (pairs.flatMap (fun p => [p.1, p.2]) ++ [sep']) := by
      have := greedyChain_mkChain TC S t0 pairs [sep'] h0t
        (fun p hpm => ⟨(hp p hpm).1, (hp p hpm).2.1⟩) (Or.inr ⟨sep', rfl, hsep⟩)
      simpa using this
    have hstep := combineChainLoop_merge_sep TC TokenType.identifier S t0
      (pairs.flatMap (fun p => [p.1, p.2])) sep'
      ((mkChain t0 pairs ++ [sep']).length) hg2 hsep
      (by
        have := hlen3
        rw [show (mkChain t0 pairs : List Token)
          = t0 :: pairs.flatMap (fun p => [p.1, p.2]) from rfl] at this
        omega)
    rw [show (mkChain t0 pairs ++ [sep'] : List Token)
        = t0 :: (pairs.flatMap (fun p => [p.1, p.2]) ++ [sep']) from rfl] at *
    rw [hstep]
    have hfl : (t0 :: (pairs.flatMap (fun p => [p.1, p.2]) ++ [sep'])).length
        = (t0 :: pairs.flatMap (fun p => [p.1, p.2])).length + 1 := by
      simp
    rw [hfl]
    exact combineChainLoop_two_done _ _ _ _ _ _ hsepT
  · show combineChainLoop TC TokenType.identifier S [] []
        [t0] 0 (([t0] : List Token).length + 1) = [t0]
    exact combineChainLoop_single _ _ _ _ _ h0t h0s
  · show combineChainLoop TC TokenType.identifier S [] []
        [t0, sep'] 0 (([t0, sep'] : List Token).length + 1) = [t0, sep']
    have : (([t0, sep'] : List Token).length + 1) = 1 + 2 := by simp
    rw [this]
    exact combineChainLoop_short_pair _ _ _ _ _ _ h0t h0s hsep hsepT

/-- C8, witness.  `foo.bar.baz` (three identifiers chained by dots)
merges into the single Identifier token `foo.bar.baz`, and
`foo.bar.` (run ending on a separator) merges into `foo.bar` with the
trailing dot left in the stream. -/
theorem c8_chain_combination_witness :
    (getCombineConsecutiveTokensOfTypeFn [TokenType.identifier, TokenType.keyword]
        TokenType.identifier [".".toList, "?.".toList] [] []
        { tokens := mkChain { type := TokenType.identifier, value := "foo".toList }
            [({ type := TokenType.punctuation, value := ".".toList },
              { type := TokenType.identifier, value := "bar".toList }),
             ({ type := TokenType.punctuation, value := ".".toList },
              { type := TokenType.identifier, value := "baz".toList })],
          logItems := [] }).tokens
      = [{ type := TokenType.identifier, value := "foo.bar.baz".toList }]
    ∧ (getCombineConsecutiveTokensOfTypeFn [TokenType.identifier, TokenType.keyword]
        TokenType.identifier [".".toList, "?.".toList] [] []
        { tokens := mkChain { type := TokenType.identifier, value := "foo".toList }
            [({ type := TokenType.punctuation, value := ".".toList },
              { type := TokenType.identifier, value := "bar".toList })]
            ++ [{ type := TokenType.punctuation, value := ".".toList }],
          logItems := [] }).tokens
      = [{ type := TokenType.identifier, value := "foo.bar".toList },
         { type := TokenType.punctuation, value := ".".toList }] := by
  constructor
  · have h := (c8_chain_combination [TokenType.identifier, TokenType.keyword]
      [".".toList, "?.".toList]
      { type := TokenType.identifier, value := "foo".toList }
      { type := TokenType.punctuation, value := ".".toList }
      [({ type := TokenType.punctuation, value := ".".toList },
        { type := TokenType.identifier, value := "bar".toList }),
       ({ type := TokenType.punctuation, value := ".".toList },
        { type := TokenType.identifier, value := "baz".toList })]
      [] none none (by decide) (by decide) (by decide) (by decide)
      (by decide) (by decide)).2.1
    rw [h]
    decide
  · have h := (c8_chain_combination [TokenType.identifier, TokenType.keyword]
      [".".toList, "?.".toList]
      { type := TokenType.identifier, value := "foo".toList }
      { type := TokenType.punctuation, value := ".".toList }
      [({ type := TokenType.punctuation, value := ".".toList },
        { type := TokenType.identifier, value := "bar".toList })]
      [] none none (by decide) (by decide) (by decide) (by decide)
      (by decide) (by decide)).2.2.1
    rw [h]
    decide

/-- The backward scanning loop never reads index 0, so it cannot
distinguish two token arrays that differ only in their head. -/
theorem codeBlockBwd_tail_eq (t0 t0' : Token) (rest : List Token)
    (P ip : Str) :
    ∀ (fuel i depth : Nat),
      codeBlockBwd (t0 :: rest) P ip i depth fuel
        = codeBlockBwd (t0' :: rest) P ip i depth fuel := by
  intro fuel
  induction fuel with
  | zero => intro i depth; cases i <;> rfl
  | succ fuel ih =>
    intro i depth
    cases i with
    | zero => rfl
    | succ j =>
      show (if j + 1 < (t0 :: rest).length then _ else _)
          = (if j + 1 < (t0' :: rest).length then _ else _)
      have hlen : (t0 :: rest).length = (t0' :: rest).length := by simp
      by_cases hj : j + 1 < (t0 :: rest).length
      · rw [if_pos hj, if_pos (hlen ▸ hj)]
        have hget : (t0 :: rest).get? (j + 1) = (t0' :: rest).get? (j + 1) := by
          simp [List.get?_cons_succ]
        rw [show (t0 :: rest).get? (j + 1) = rest.get? j from rfl,
          show (t0' :: rest).get? (j + 1) = rest.get? j from rfl]
        cases rest.get? j with
        | none => rfl
        | some t =>
          by_cases hs : isSameParen t ip = true
          · simp only [hs, if_true, ih]
          · rw [Bool.not_eq_true] at hs
            by_cases ho : isOppositeParen P t ip = true
            · simp only [hs, ho, Bool.false_eq_true, if_false, if_true]
              cases depth with
              | zero => rfl
              | succ d => simp only [ih]
            · rw [Bool.not_eq_true] at ho
              simp only [hs, ho, Bool.false_eq_true, if_false, ih]
      · rw [if_neg hj, if_neg (hlen ▸ hj)]

/-- Backward scan over a delimiter-free interior: starting at index `k`
(inside the interior) the loop collects the first `k` interior tokens in
reverse order and stops at index 0 without visiting it. -/
theorem codeBlockBwd_collect (opTok closeTok : Token) (ms : List Token)
    (P ip : Str)
    (hm : ∀ t ∈ ms, isSameParen t ip = false ∧ isOppositeParen P t ip = false) :
    ∀ (k fuel : Nat), k ≤ ms.length → k ≤ fuel →
      codeBlockBwd (opTok :: ms ++ [closeTok]) P ip k 0 fuel
        = (ms.take k).reverse := by
  intro k
  induction k with
  | zero => intro fuel _ _; cases fuel <;> rfl
  | succ k ih =>
    intro fuel hk hf
    cases fuel with
    | zero => omega
    | succ f =>
      show (if k + 1 < (opTok :: ms ++ [closeTok]).length then _ else _) = _
      have hlen : (opTok :: ms ++ [closeTok]).length = ms.length + 2 := by simp
      rw [if_pos (by omega)]
      have hklt : k < ms.length := by omega
      have hget : (opTok :: ms ++ [closeTok]).get? (k + 1) = ms.get? k := by
        rw [show (opTok :: ms ++ [closeTok]).get? (k + 1)
          = (ms ++ [closeTok]).get? k from rfl]
        exact List.get?_append hklt
      cases hmk : ms.get? k with
      | none =>
        exact absurd (List.get?_eq_none.mp hmk) (by omega)
      | some m =>
        have hmem : m ∈ ms := List.get?_mem hmk
        rw [hget, hmk]
        simp only [(hm m hmem).1, (hm m hmem).2, Bool.false_eq_true, if_false]
        rw [ih f (by omega) (by omega)]
        have htake : ms.take (k + 1) = ms.take k ++ [m] := by
          rw [List.take_succ]
          have hx : ms[k]? = some m := by
            rw [← List.get?_eq_getElem?]; exact hmk
          rw [hx]
          rfl
        rw [htake, List.reverse_append]
        rfl

/-- Length of a list with one token consed on and one appended. -/
theorem len_cons_append_singleton (a b : Token) (ms : List Token) :
    List.length (a :: ms ++ [b]) = ms.length + 2 := by
  simp

/-- C10.  The backward walk of `getCodeBlockAt` runs its loop only
while the index stays strictly positive, so it never examines the token
at index 0: the returned run is unchanged under any replacement of the
head token.  Consequently, when the matching delimiter of a backward
scan sits at index 0 — `(` at index 0 with the scan starting on its
`)` and a delimiter-free interior — the returned run is the closer
followed by the interior in reverse, omits the opening delimiter, and
fails the `isCompleteCodeBlock` check even though the array is a
balanced block. -/
theorem c10_backward_scan_skips_index_zero :
    (∀ (t0 t0' : Token) (rest : List Token) (k : Nat) (parens : Str),
      getCodeBlockAt (t0 :: rest) (k + 1) Direction.bwd parens
        = getCodeBlockAt (t0' :: rest) (k + 1) Direction.bwd parens)
    ∧ (∀ (ms : List Token),
      (∀ t ∈ ms, ¬ (isPuncOrOp t = true
        ∧ (t.value = "(".toList ∨ t.value = ")".toList))) →
      getCodeBlockAt
          ({ type := TokenType.punctuation, value := "(".toList } :: ms
            ++ [{ type := TokenType.punctuation, value := ")".toList }])
          (ms.length + 1) Direction.bwd PARENS
        = { type := TokenType.punctuation, value := ")".toList } :: ms.reverse
      ∧ { type := TokenType.punctuation, value := "(".toList }
          ∉ ({ type := TokenType.punctuation, value := ")".toList } :: ms.reverse)
      ∧ isCompleteCodeBlock
          ({ type := TokenType.punctuation, value := ")".toList } :: ms.reverse)
          = false) := by
  constructor
  · intro t0 t0' rest k parens
    unfold getCodeBlockAt
    rw [show (t0 :: rest).get? (k + 1) = rest.get? k from rfl,
      show (t0' :: rest).get? (k + 1) = rest.get? k from rfl]
    cases hg : rest.get? k with
    | none => rfl
    | some start =>
      show (if isPuncOrOp start = true ∧ strIncludes parens start.value = true
          then start :: codeBlockBwd (t0 :: rest) parens start.value
            (k + 1 - 1) 0 (t0 :: rest).length
          else [])
        = (if isPuncOrOp start = true ∧ strIncludes parens start.value = true
          then start :: codeBlockBwd (t0' :: rest) parens start.value
            (k + 1 - 1) 0 (t0' :: rest).length
          else [])
      by_cases hc : (isPuncOrOp start = true
          ∧ strIncludes parens start.value = true)
      · rw [if_pos hc, if_pos hc]
        rw [show (t0 :: rest).length = rest.length + 1 from rfl,
          show (t0' :: rest).length = rest.length + 1 from rfl]
        rw [codeBlockBwd_tail_eq t0 t0' rest parens start.value]
      · rw [if_neg hc, if_neg hc]
  · intro ms hms
    have hm' : ∀ t ∈ ms, isSameParen t ")".toList = false
        ∧ isOppositeParen PARENS t ")".toList = false := by
      intro t ht
      constructor
      · simp only [isSameParen, decide_eq_false_iff_not]
        intro hand
        exact hms t ht ⟨hand.1, Or.inr hand.2⟩
      · unfold isOppositeParen
        rw [show subIndexOf PARENS ")".toList = some 3 from rfl]
        simp only [decide_eq_false_iff_not]
        intro hand
        refine hms t ht ⟨hand.1, Or.inl ?_⟩
        rw [hand.2]
        rfl
    have hmain : getCodeBlockAt
        ({ type := TokenType.punctuation, value := "(".toList } :: ms
          ++ [{ type := TokenType.punctuation, value := ")".toList }])
        (ms.length + 1) Direction.bwd PARENS
        = { type := TokenType.punctuation, value := ")".toList } :: ms.reverse := by
      unfold getCodeBlockAt
      have hget2 : List.get?
            ({ type := TokenType.punctuation, value := "(".toList } :: ms
              ++ [{ type := TokenType.punctuation, value := ")".toList }])
            (ms.length + 1)
          = some { type := TokenType.punctuation, value := ")".toList } := by
        rw [show List.get?
            ({ type := TokenType.punctuation, value := "(".toList } :: ms
              ++ [{ type := TokenType.punctuation, value := ")".toList }])
            (ms.length + 1)
          = List.get?
            (ms ++ [{ type := TokenType.punctuation, value := ")".toList }])
            ms.length from rfl]
        exact List.get?_concat_length ms _
      rw [hget2]
      show (if isPuncOrOp { type := TokenType.punctuation, value := ")".toList } = true
            ∧ strIncludes PARENS (")".toList) = true
          then { type := TokenType.punctuation, value := ")".toList }
            :: codeBlockBwd
              ({ type := TokenType.punctuation, value := "(".toList } :: ms
                ++ [{ type := TokenType.punctuation, value := ")".toList }])
              PARENS (")".toList) (ms.length + 1 - 1) 0
              (List.length
                ({ type := TokenType.punctuation, value := "(".toList } :: ms
                  ++ [{ type := TokenType.punctuation, value := ")".toList }]))
          else [])
        = { type := TokenType.punctuation, value := ")".toList } :: ms.reverse
      have hcond : isPuncOrOp { type := TokenType.punctuation, value := ")".toList } = true
          ∧ strIncludes PARENS (")".toList) = true := ⟨rfl, rfl⟩
      rw [if_pos hcond]
      rw [show ms.length + 1 - 1 = ms.length from rfl]
      rw [len_cons_append_singleton]
      rw [codeBlockBwd_collect
        { type := TokenType.punctuation, value := "(".toList }
        { type := TokenType.punctuation, value := ")".toList }
        ms PARENS (")".toList) hm' ms.length (ms.length + 2)
        (Nat.le_refl _) (by omega)]
      rw [List.take_length]
    refine ⟨hmain, ?_, ?_⟩
    · intro hmem
      rcases List.mem_cons.mp hmem with heq | hrev
      · exact absurd heq (by decide)
      · have hin : { type := TokenType.punctuation, value := "(".toList } ∈ ms :=
          List.mem_reverse.mp hrev
        exact hms _ hin ⟨rfl, Or.inl rfl⟩
    · rw [Bool.eq_false_iff]
      intro h
      unfold isCompleteCodeBlock at h
      have hand := of_decide_eq_true h
      obtain ⟨h1, h2⟩ := hand
      unfold isOppositeParen at h2
      simp only [show subIndexOf PARENS_EXT (")".toList) = some 5 from rfl] at h2
      rw [decide_eq_true_eq] at h2
      obtain ⟨hp2, hv2⟩ := h2
      have hv2' : (({ type := TokenType.punctuation, value := ")".toList }
          :: ms.reverse).getLast (List.cons_ne_nil _ _)).value = "(".toList := by
        rw [hv2]
        decide
      have hlastmem := List.getLast_mem (List.cons_ne_nil
        { type := TokenType.punctuation, value := ")".toList } ms.reverse)
      rcases List.mem_cons.mp hlastmem with heq | hrev
      · rw [heq] at hv2'
        exact absurd hv2' (by decide)
      · have hmem2 : (({ type := TokenType.punctuation, value := ")".toList }
            :: ms.reverse).getLast (List.cons_ne_nil _ _)) ∈ ms :=
          List.mem_reverse.mp hrev
        exact hms _ hmem2 ⟨hp2, Or.inl hv2'⟩

/-- Forward scan over a delimiter-free interior followed by the closing
delimiter: starting right after `front`, the loop collects the interior
tokens in order and stops on the closer, returning `ms ++ [gt]`. -/
theorem codeBlockFwd_collect (P ip : Str) (gt : Token)
    (hgs : isSameParen gt ip = false) (hgo : isOppositeParen P gt ip = true) :
    ∀ (ms front back : List Token) (fuel : Nat),
      (∀ t ∈ ms, isSameParen t ip = false ∧ isOppositeParen P t ip = false) →
      ms.length < fuel →
      codeBlockFwd (front ++ (ms ++ gt :: back)) P ip front.length 0 fuel
        = ms ++ [gt] := by
  intro ms
  induction ms with
  | nil =>
    intro front back fuel hm hf
    cases fuel with
    | zero => omega
    | succ f =>
      conv_lhs => rw [codeBlockFwd]
      have hg : (front ++ ([] ++ gt :: back)).get? front.length = some gt := by
        rw [List.get?_append_right (Nat.le_refl _), Nat.sub_self]
        rfl
      rw [hg]
      simp only [hgs, hgo, Bool.false_eq_true, if_false, if_true,
        List.nil_append]
  | cons m ms ih =>
    intro front back fuel hm hf
    cases fuel with
    | zero => omega
    | succ f =>
      conv_lhs => rw [codeBlockFwd]
      have hg : (front ++ ((m :: ms) ++ gt :: back)).get? front.length
          = some m := by
        rw [List.get?_append_right (Nat.le_refl _), Nat.sub_self]
        rfl
      rw [hg]
      have hmm : m ∈ m :: ms := List.mem_cons_self m ms
      simp only [(hm m hmm).1, (hm m hmm).2, Bool.false_eq_true, if_false]
      rw [show front ++ ((m :: ms) ++ gt :: back)
          = (front ++ [m]) ++ (ms ++ gt :: back) from by simp]
      rw [show front.length + 1 = (front ++ [m]).length from by simp]
      rw [ih (front ++ [m]) back f
        (fun t ht => hm t (List.mem_cons_of_mem m ht))
        (by simp only [List.length_cons] at hf; omega)]
      rw [List.cons_append]

/-- Forward scan over a delimiter-free tail with no closer at all: the
loop pushes every remaining token and falls off the end of the array. -/
theorem codeBlockFwd_exhaust (P ip : Str) :
    ∀ (ms front : List Token) (fuel : Nat),
      (∀ t ∈ ms, isSameParen t ip = false ∧ isOppositeParen P t ip = false) →
      ms.length < fuel →
      codeBlockFwd (front ++ ms) P ip front.length 0 fuel = ms := by
  intro ms
  induction ms with
  | nil =>
    intro front fuel hm hf
    cases fuel with
    | zero => omega
    | succ f =>
      conv_lhs => rw [codeBlockFwd]
      have hg : (front ++ []).get? front.length = none := by
        apply List.get?_eq_none.mpr
        simp
      rw [hg]
  | cons m ms ih =>
    intro front fuel hm hf
    cases fuel with
    | zero => omega
    | succ f =>
      conv_lhs => rw [codeBlockFwd]
      have hg : (front ++ m :: ms).get? front.length = some m := by
        rw [List.get?_append_right (Nat.le_refl _), Nat.sub_self]
        rfl
      rw [hg]
      have hmm : m ∈ m :: ms := List.mem_cons_self m ms
      simp only [(hm m hmm).1, (hm m hmm).2, Bool.false_eq_true, if_false]
      rw [show front ++ m :: ms = (front ++ [m]) ++ ms from by simp]
      rw [show front.length + 1 = (front ++ [m]).length from by simp]
      rw [ih (front ++ [m]) f
        (fun t ht => hm t (List.mem_cons_of_mem m ht))
        (by simp only [List.length_cons] at hf; omega)]

/-- Conversion of the angle-bracket-free hypothesis to the delimiter
predicates of the scanning loops (relative to the opener `<` and the
extended delimiter set). -/
theorem angleFree_same_opp (ms : List Token)
    (h : ∀ t ∈ ms, ¬ (isPuncOrOp t = true
      ∧ (t.value = ['<'] ∨ t.value = ['>']))) :
    ∀ t ∈ ms, isSameParen t ltOpTok.value = false
      ∧ isOppositeParen PARENS_EXT t ltOpTok.value = false := by
  intro t ht
  constructor
  · simp only [isSameParen, decide_eq_false_iff_not]
    intro hand
    refine h t ht ⟨hand.1, Or.inl ?_⟩
    rw [hand.2]
    rfl
  · unfold isOppositeParen
    rw [show subIndexOf PARENS_EXT ltOpTok.value = some 3 from rfl]
    simp only [decide_eq_false_iff_not]
    intro hand
    refine h t ht ⟨hand.1, Or.inr ?_⟩
    rw [hand.2]
    rfl

/-- An interior of identifiers and commas contains no angle-bracket
punctuation/operator token. -/
theorem identComma_angleFree (ms : List Token)
    (h : ∀ t ∈ ms, t.type = TokenType.identifier
      ∨ (t.type = TokenType.punctuation ∧ t.value = [','])) :
    ∀ t ∈ ms, ¬ (isPuncOrOp t = true
      ∧ (t.value = ['<'] ∨ t.value = ['>'])) := by
  intro t ht hand
  rcases h t ht with hid | ⟨hp, hv⟩
  · have hpo := of_decide_eq_true (show decide (t.type = TokenType.punctuation
      ∨ t.type = TokenType.operator) = true from hand.1)
    rcases hpo with h1 | h1
    · exact absurd (hid.symm.trans h1) (by decide)
    · exact absurd (hid.symm.trans h1) (by decide)
  · rcases hand.2 with hv2 | hv2
    · exact absurd (hv.symm.trans hv2) (by decide)
    · exact absurd (hv.symm.trans hv2) (by decide)

/-- The TypeScript `removeGenerics` loop is the identity when no `<`
operator occurs at or after the scanning index. -/
theorem tsLoop_skip : ∀ (fuel : Nat) (tokens : List Token) (i : Nat),
    (∀ j, i ≤ j → ∀ t, tokens.get? j = some t →
      ¬ (t.type = TokenType.operator ∧ t.value = ['<'])) →
    tsRemoveGenericsLoop tokens i fuel = tokens := by
  intro fuel
  induction fuel with
  | zero => intro tokens i h; rfl
  | succ fuel ih =>
    intro tokens i h
    conv_lhs => rw [tsRemoveGenericsLoop]
    by_cases hi : i < tokens.length
    · rw [if_pos hi]
      split
      · rfl
      · rename_i t hg
        rw [if_neg (h i (Nat.le_refl i) t hg)]
        exact ih tokens (i + 1) (fun j hj t' hg' => h j (by omega) t' hg')
    · rw [if_neg hi]

/-- The C# `removeTypes` scanning loop is the identity when no `<`
operator occurs at or after the scanning index. -/
theorem csLoop_skip : ∀ (fuel : Nat) (tokens : List Token) (i : Nat),
    (∀ j, i ≤ j → ∀ t, tokens.get? j = some t →
      ¬ (t.type = TokenType.operator ∧ t.value = ['<'])) →
    csRemoveTypesLoop tokens i fuel = tokens := by
  intro fuel
  induction fuel with
  | zero => intro tokens i h; rfl
  | succ fuel ih =>
    intro tokens i h
    conv_lhs => rw [csRemoveTypesLoop]
    by_cases hi : i < tokens.length
    · rw [if_pos hi]
      split
      · rfl
      · rename_i t hg
        rw [if_neg (h i (Nat.le_refl i) t hg)]
        exact ih tokens (i + 1) (fun j hj t' hg' => h j (by omega) t' hg')
    · rw [if_neg hi]

/-- Past the opener at index 1, the candidate stream
`t0 < ms... >` holds no further `<` operator. -/
theorem tail_no_lt (t0 : Token) (ms : List Token)
    (hpar : ∀ t ∈ ms, ¬ (isPuncOrOp t = true
      ∧ (t.value = ['<'] ∨ t.value = ['>']))) :
    ∀ j, 2 ≤ j → ∀ t, (t0 :: ltOpTok :: ms ++ [gtOpTok]).get? j = some t →
      ¬ (t.type = TokenType.operator ∧ t.value = ['<']) := by
  intro j hj t hg hand
  obtain ⟨k, rfl⟩ : ∃ k, j = k + 2 := ⟨j - 2, by omega⟩
  rw [show (t0 :: ltOpTok :: ms ++ [gtOpTok]).get? (k + 2)
      = (ms ++ [gtOpTok]).get? k from rfl] at hg
  have hmem : t ∈ ms ++ [gtOpTok] := List.get?_mem hg
  rcases List.mem_append.mp hmem with hms | hgt
  · refine hpar t hms ⟨?_, Or.inl hand.2⟩
    show decide (t.type = TokenType.punctuation
      ∨ t.type = TokenType.operator) = true
    rw [hand.1]
    rfl
  · rw [List.mem_singleton.mp hgt] at hand
    exact absurd hand.2 (by decide)

/-- The matched-block extraction at the `<` operator of
`t0 < ms... >` returns the full angle block when the interior is
delimiter-free. -/
theorem angle_block_at_one (t0 : Token) (ms : List Token)
    (hm : ∀ t ∈ ms, isSameParen t ltOpTok.value = false
      ∧ isOppositeParen PARENS_EXT t ltOpTok.value = false) :
    getCodeBlockAt (t0 :: ltOpTok :: ms ++ [gtOpTok]) 1 Direction.fwd PARENS_EXT
      = ltOpTok :: ms ++ [gtOpTok] := by
  unfold getCodeBlockAt
  rw [show (t0 :: ltOpTok :: ms ++ [gtOpTok]).get? 1 = some ltOpTok from rfl]
  show (if isPuncOrOp ltOpTok = true
        ∧ strIncludes PARENS_EXT ltOpTok.value = true
      then ltOpTok :: codeBlockFwd (t0 :: ltOpTok :: ms ++ [gtOpTok]) PARENS_EXT
        ltOpTok.value (1 + 1) 0
        (List.length (t0 :: ltOpTok :: ms ++ [gtOpTok]))
      else [])
    = ltOpTok :: ms ++ [gtOpTok]
  have hcond : isPuncOrOp ltOpTok = true
      ∧ strIncludes PARENS_EXT ltOpTok.value = true := ⟨rfl, rfl⟩
  rw [if_pos hcond]
  have hblk := codeBlockFwd_collect PARENS_EXT ltOpTok.value gtOpTok
    (by decide) (by decide) ms [t0, ltOpTok] []
    (List.length (t0 :: ltOpTok :: ms ++ [gtOpTok])) hm
    (by simp only [List.length_cons, List.length_append,
      List.length_singleton]; omega)
  exact congrArg (ltOpTok :: ·) hblk

/-- An angle block with the `<` opener and the `>` closer passes the
completeness check. -/
theorem angle_block_complete (ms : List Token) :
    isCompleteCodeBlock (ltOpTok :: ms ++ [gtOpTok]) = true := by
  rw [show isCompleteCodeBlock (ltOpTok :: ms ++ [gtOpTok])
      = decide (isPuncOrOp ltOpTok = true
        ∧ isOppositeParen PARENS_EXT
            ((ltOpTok :: ms ++ [gtOpTok]).getLast
              (List.cons_ne_nil ltOpTok (ms ++ [gtOpTok])))
            ltOpTok.value = true) from rfl]
  rw [decide_eq_true_eq]
  refine ⟨rfl, ?_⟩
  have hlast : (ltOpTok :: ms ++ [gtOpTok]).getLast
      (List.cons_ne_nil ltOpTok (ms ++ [gtOpTok])) = gtOpTok :=
    List.getLast_concat _
  rw [hlast]
  decide

/-- Removing the whole angle block spliced out at index 1 of
`t0 < ms... >` leaves only the head token. -/
theorem angle_splice (t0 : Token) (ms : List Token) :
    spliceRemove (t0 :: ltOpTok :: ms ++ [gtOpTok]) 1
      (ltOpTok :: ms ++ [gtOpTok]).length = [t0] := by
  unfold spliceRemove
  rw [show (t0 :: ltOpTok :: ms ++ [gtOpTok]).take 1 = [t0] from rfl]
  rw [List.drop_eq_nil_of_le (by simp only [List.length_cons,
    List.length_append, List.length_singleton]; omega)]
  rfl

/-- The interior-contents check fails on an angle block whose interior
holds a token that is neither an identifier nor a comma. -/
theorem blockInnerOk_false (ms : List Token) (t : Token) (n : Nat)
    (hn : ms.get? n = some t)
    (hbad : ¬ (t.type = TokenType.identifier
      ∨ (t.type = TokenType.punctuation ∧ t.value = [',']))) :
    blockInnerOk (ltOpTok :: ms ++ [gtOpTok]) = false := by
  have hlt : n < ms.length := by
    rcases List.get?_eq_some.mp hn with ⟨h, _⟩
    exact h
  unfold blockInnerOk
  rw [List.all_eq_false]
  refine ⟨(n + 1, t), ?_, ?_⟩
  · rw [List.mem_enum_iff_getElem?]
    show ((ltOpTok :: ms) ++ [gtOpTok])[n + 1]? = some t
    rw [List.getElem?_append_left
      (show n + 1 < (ltOpTok :: ms).length from by
        simp only [List.length_cons]; omega)]
    rw [List.getElem?_cons_succ]
    rw [← List.get?_eq_getElem?]
    exact hn
  · intro hp
    have hp' := of_decide_eq_true hp
    rcases hp' with h0 | hlast | hrest
    · omega
    · rw [len_cons_append_singleton] at hlast
      omega
    · exact hbad hrest

/-- The interior-contents check succeeds on an angle block whose
interior is all identifiers and commas. -/
theorem blockInnerOk_true (ms : List Token)
    (h : ∀ t ∈ ms, t.type = TokenType.identifier
      ∨ (t.type = TokenType.punctuation ∧ t.value = [','])) :
    blockInnerOk (ltOpTok :: ms ++ [gtOpTok]) = true := by
  unfold blockInnerOk
  rw [List.all_eq_true]
  rintro ⟨j, t⟩ hmem
  rw [List.mem_enum_iff_getElem?] at hmem
  show decide (j = 0 ∨ j = (ltOpTok :: ms ++ [gtOpTok]).length - 1
    ∨ t.type = TokenType.identifier
    ∨ (t.type = TokenType.punctuation ∧ t.value = [','])) = true
  rw [decide_eq_true_eq]
  have hj : j < (ltOpTok :: ms ++ [gtOpTok]).length := by
    rcases List.getElem?_eq_some.mp
      (show (ltOpTok :: ms ++ [gtOpTok])[j]? = some t from hmem) with ⟨hh, _⟩
    exact hh
  rw [len_cons_append_singleton] at hj
  rcases Nat.eq_zero_or_pos j with hj0 | hjpos
  · exact Or.inl hj0
  · by_cases hjl : j = ms.length + 1
    · refine Or.inr (Or.inl ?_)
      rw [len_cons_append_singleton]
      omega
    · obtain ⟨k, rfl⟩ : ∃ k, j = k + 1 := ⟨j - 1, by omega⟩
      have hk : k < ms.length := by omega
      have hmem' : ms[k]? = some t := by
        have h1 : ((ltOpTok :: ms) ++ [gtOpTok])[k + 1]? = some t := hmem
        rw [List.getElem?_append_left
          (show k + 1 < (ltOpTok :: ms).length from by
            simp only [List.length_cons]; omega)] at h1
        rw [List.getElem?_cons_succ] at h1
        exact h1
      exact Or.inr (Or.inr (h t (List.getElem?_mem hmem')))

/-- The logical-operator scan of `removeGenerics` finds nothing in an
angle block free of `&&` and `||`. -/
theorem angle_block_any_amp_false (ms : List Token)
    (h : ∀ t ∈ ms, ¬ (t.type = TokenType.operator
      ∧ (t.value = "&&".toList ∨ t.value = "||".toList))) :
    (ltOpTok :: ms ++ [gtOpTok]).any (fun t2 =>
      t2.type == TokenType.operator
        && (t2.value == "&&".toList || t2.value == "||".toList)) = false := by
  rw [List.any_eq_false]
  intro x hx
  rcases List.mem_cons.mp hx with h0 | hx2
  · subst h0
    decide
  · rcases List.mem_append.mp hx2 with hxm | hxg
    · intro hp
      simp only [Bool.and_eq_true, beq_iff_eq, Bool.or_eq_true] at hp
      exact h x hxm hp
    · rw [List.mem_singleton.mp hxg]
      decide

/-- The logical-operator scan of `removeGenerics` fires on an angle
block whose interior holds `&&` or `||`. -/
theorem angle_block_any_amp_true (ms : List Token)
    (hex : ∃ t ∈ ms, t.type = TokenType.operator
      ∧ (t.value = "&&".toList ∨ t.value = "||".toList)) :
    (ltOpTok :: ms ++ [gtOpTok]).any (fun t2 =>
      t2.type == TokenType.operator
        && (t2.value == "&&".toList || t2.value == "||".toList)) = true := by
  obtain ⟨t, ht, hp⟩ := hex
  rw [List.any_eq_true]
  refine ⟨t, List.mem_cons_of_mem _ (List.mem_append_left _ ht), ?_⟩
  simp only [Bool.and_eq_true, beq_iff_eq, Bool.or_eq_true]
  exact hp

/-- The consecutive-identifier filter keeps a lone token. -/
theorem dropIdents_singleton (t0 : Token) :
    dropConsecutiveIdents [t0] = [t0] := by
  unfold dropConsecutiveIdents
  simp

/-- The consecutive-identifier filter keeps all of `a < b`: the `<`
operator between the identifiers breaks every identifier run. -/
theorem dropIdents_three (a b : Token) :
    dropConsecutiveIdents [a, ltOpTok, b] = [a, ltOpTok, b] := by
  unfold dropConsecutiveIdents
  simp [List.enum_cons, ltOpTok]

/-- On `t0 < ms... >` with a delimiter-free interior holding no
logical operator, the TypeScript loop removes the whole angle block. -/
theorem tsLoop_strip_angle (t0 : Token) (ms : List Token)
    (h0 : ¬ (t0.type = TokenType.operator ∧ t0.value = ['<']))
    (hpar : ∀ t ∈ ms, ¬ (isPuncOrOp t = true
      ∧ (t.value = ['<'] ∨ t.value = ['>'])))
    (hamp : ∀ t ∈ ms, ¬ (t.type = TokenType.operator
      ∧ (t.value = "&&".toList ∨ t.value = "||".toList))) :
    tsRemoveGenericsLoop (t0 :: ltOpTok :: ms ++ [gtOpTok]) 0
      ((t0 :: ltOpTok :: ms ++ [gtOpTok]).length + 1) = [t0] := by
  have hso := angleFree_same_opp ms hpar
  conv_lhs => rw [tsRemoveGenericsLoop]
  rw [if_pos (show (0:Nat) < (t0 :: ltOpTok :: ms ++ [gtOpTok]).length
    from by simp)]
  split
  · rename_i hg
    exact absurd hg (by
      rw [show (t0 :: ltOpTok :: ms ++ [gtOpTok]).get? 0 = some t0 from rfl]
      simp)
  · rename_i t hg
    have ht : t = t0 := by
      rw [show (t0 :: ltOpTok :: ms ++ [gtOpTok]).get? 0 = some t0 from rfl] at hg
      exact (Option.some_inj.mp hg).symm
    rw [ht]
    rw [if_neg h0]
    rw [show (t0 :: ltOpTok :: ms ++ [gtOpTok]).length = ms.length + 2 + 1
      from by simp]
    conv_lhs => rw [tsRemoveGenericsLoop]
    rw [if_pos (show (1:Nat) < (t0 :: ltOpTok :: ms ++ [gtOpTok]).length
      from by simp)]
    split
    · rename_i hg
      exact absurd hg (by
        rw [show (t0 :: ltOpTok :: ms ++ [gtOpTok]).get? 1 = some ltOpTok
          from rfl]
        simp)
    · rename_i t hg
      have ht : t = ltOpTok := by
        rw [show (t0 :: ltOpTok :: ms ++ [gtOpTok]).get? 1 = some ltOpTok
          from rfl] at hg
        exact (Option.some_inj.mp hg).symm
      subst ht
      rw [if_pos (show ltOpTok.type = TokenType.operator
        ∧ ltOpTok.value = ['<'] from ⟨rfl, rfl⟩)]
      simp only [angle_block_at_one t0 ms hso]
      rw [angle_block_complete ms]
      rw [if_neg (show ¬ ¬ (true = true) from fun hh => hh rfl)]
      rw [angle_block_any_amp_false ms hamp]
      rw [if_neg (show ¬ (false = true) from by decide)]
      rw [angle_splice t0 ms]
      rw [show ms.length + 2 = ms.length + 1 + 1 from by omega]
      conv_lhs => rw [tsRemoveGenericsLoop]
      rw [if_neg (show ¬ (1 + 1 < ([t0] : List Token).length) from by simp)]

/-- On `t0 < ms... >` whose interior holds `&&` or `||`, the
TypeScript loop leaves the stream unchanged. -/
theorem tsLoop_keep_amp (t0 : Token) (ms : List Token)
    (h0 : ¬ (t0.type = TokenType.operator ∧ t0.value = ['<']))
    (hpar : ∀ t ∈ ms, ¬ (isPuncOrOp t = true
      ∧ (t.value = ['<'] ∨ t.value = ['>'])))
    (hex : ∃ t ∈ ms, t.type = TokenType.operator
      ∧ (t.value = "&&".toList ∨ t.value = "||".toList)) :
    tsRemoveGenericsLoop (t0 :: ltOpTok :: ms ++ [gtOpTok]) 0
      ((t0 :: ltOpTok :: ms ++ [gtOpTok]).length + 1)
      = t0 :: ltOpTok :: ms ++ [gtOpTok] := by
  have hso := angleFree_same_opp ms hpar
  conv_lhs => rw [tsRemoveGenericsLoop]
  rw [if_pos (show (0:Nat) < (t0 :: ltOpTok :: ms ++ [gtOpTok]).length
    from by simp)]
  split
  · rename_i hg
    exact absurd hg (by
      rw [show (t0 :: ltOpTok :: ms ++ [gtOpTok]).get? 0 = some t0 from rfl]
      simp)
  · rename_i t hg
    have ht : t = t0 := by
      rw [show (t0 :: ltOpTok :: ms ++ [gtOpTok]).get? 0 = some t0 from rfl] at hg
      exact (Option.some_inj.mp hg).symm
    rw [ht]
    rw [if_neg h0]
    rw [show (t0 :: ltOpTok :: ms ++ [gtOpTok]).length = ms.length + 2 + 1
      from by simp]
    conv_lhs => rw [tsRemoveGenericsLoop]
    rw [if_pos (show (1:Nat) < (t0 :: ltOpTok :: ms ++ [gtOpTok]).length
      from by simp)]
    split
    · rename_i hg
      exact absurd hg (by
        rw [show (t0 :: ltOpTok :: ms ++ [gtOpTok]).get? 1 = some ltOpTok
          from rfl]
        simp)
    · rename_i t hg
      have ht : t = ltOpTok := by
        rw [show (t0 :: ltOpTok :: ms ++ [gtOpTok]).get? 1 = some ltOpTok
          from rfl] at hg
        exact (Option.some_inj.mp hg).symm
      subst ht
      rw [if_pos (show ltOpTok.type = TokenType.operator
        ∧ ltOpTok.value = ['<'] from ⟨rfl, rfl⟩)]
      simp only [angle_block_at_one t0 ms hso]
      rw [angle_block_complete ms]
      rw [if_neg (show ¬ ¬ (true = true) from fun hh => hh rfl)]
      rw [angle_block_any_amp_true ms hex]
      rw [if_pos (show (true : Bool) = true from rfl)]
      exact tsLoop_skip (ms.length + 2) _ (1 + 1) (tail_no_lt t0 ms hpar)

/-- On `t0 < ms... >` with an all-identifier-and-comma interior, the
C# scanning loop removes the whole angle block. -/
theorem csLoop_strip_angle (t0 : Token) (ms : List Token)
    (h0 : ¬ (t0.type = TokenType.operator ∧ t0.value = ['<']))
    (hic : ∀ t ∈ ms, t.type = TokenType.identifier
      ∨ (t.type = TokenType.punctuation ∧ t.value = [','])) :
    csRemoveTypesLoop (t0 :: ltOpTok :: ms ++ [gtOpTok]) 0
      ((t0 :: ltOpTok :: ms ++ [gtOpTok]).length + 1) = [t0] := by
  have hso := angleFree_same_opp ms (identComma_angleFree ms hic)
  conv_lhs => rw [csRemoveTypesLoop]
  rw [if_pos (show (0:Nat) < (t0 :: ltOpTok :: ms ++ [gtOpTok]).length
    from by simp)]
  split
  · rename_i hg
    exact absurd hg (by
      rw [show (t0 :: ltOpTok :: ms ++ [gtOpTok]).get? 0 = some t0 from rfl]
      simp)
  · rename_i t hg
    have ht : t = t0 := by
      rw [show (t0 :: ltOpTok :: ms ++ [gtOpTok]).get? 0 = some t0 from rfl] at hg
      exact (Option.some_inj.mp hg).symm
    rw [ht]
    rw [if_neg h0]
    rw [show (t0 :: ltOpTok :: ms ++ [gtOpTok]).length = ms.length + 2 + 1
      from by simp]
    conv_lhs => rw [csRemoveTypesLoop]
    rw [if_pos (show (1:Nat) < (t0 :: ltOpTok :: ms ++ [gtOpTok]).length
      from by simp)]
    split
    · rename_i hg
      exact absurd hg (by
        rw [show (t0 :: ltOpTok :: ms ++ [gtOpTok]).get? 1 = some ltOpTok
          from rfl]
        simp)
    · rename_i t hg
      have ht : t = ltOpTok := by
        rw [show (t0 :: ltOpTok :: ms ++ [gtOpTok]).get? 1 = some ltOpTok
          from rfl] at hg
        exact (Option.some_inj.mp hg).symm
      subst ht
      rw [if_pos (show ltOpTok.type = TokenType.operator
        ∧ ltOpTok.value = ['<'] from ⟨rfl, rfl⟩)]
      simp only [angle_block_at_one t0 ms hso]
      rw [angle_block_complete ms, blockInnerOk_true ms hic]
      rw [if_pos (show (true = true) ∧ (true = true) from ⟨rfl, rfl⟩)]
      rw [angle_splice t0 ms]
      rw [show ms.length + 2 = ms.length + 1 + 1 from by omega]
      conv_lhs => rw [csRemoveTypesLoop]
      rw [if_neg (show ¬ (1 + 1 < ([t0] : List Token).length) from by simp)]

/-- On `t0 < ms... >` whose interior holds a token that is neither an
identifier nor a comma, the C# scanning loop leaves the stream
unchanged. -/
theorem csLoop_keep_bad (t0 : Token) (ms : List Token)
    (h0 : ¬ (t0.type = TokenType.operator ∧ t0.value = ['<']))
    (hpar : ∀ t ∈ ms, ¬ (isPuncOrOp t = true
      ∧ (t.value = ['<'] ∨ t.value = ['>'])))
    (t : Token) (n : Nat) (hn : ms.get? n = some t)
    (hbad : ¬ (t.type = TokenType.identifier
      ∨ (t.type = TokenType.punctuation ∧ t.value = [',']))) :
    csRemoveTypesLoop (t0 :: ltOpTok :: ms ++ [gtOpTok]) 0
      ((t0 :: ltOpTok :: ms ++ [gtOpTok]).length + 1)
      = t0 :: ltOpTok :: ms ++ [gtOpTok] := by
  have hso := angleFree_same_opp ms hpar
  conv_lhs => rw [csRemoveTypesLoop]
  rw [if_pos (show (0:Nat) < (t0 :: ltOpTok :: ms ++ [gtOpTok]).length
    from by simp)]
  split
  · rename_i hg
    exact absurd hg (by
      rw [show (t0 :: ltOpTok :: ms ++ [gtOpTok]).get? 0 = some t0 from rfl]
      simp)
  · rename_i t' hg
    have ht : t' = t0 := by
      rw [show (t0 :: ltOpTok :: ms ++ [gtOpTok]).get? 0 = some t0 from rfl] at hg
      exact (Option.some_inj.mp hg).symm
    rw [ht]
    rw [if_neg h0]
    rw [show (t0 :: ltOpTok :: ms ++ [gtOpTok]).length = ms.length + 2 + 1
      from by simp]
    conv_lhs => rw [csRemoveTypesLoop]
    rw [if_pos (show (1:Nat) < (t0 :: ltOpTok :: ms ++ [gtOpTok]).length
      from by simp)]
    split
    · rename_i hg
      exact absurd hg (by
        rw [show (t0 :: ltOpTok :: ms ++ [gtOpTok]).get? 1 = some ltOpTok
          from rfl]
        simp)
    · rename_i t' hg
      have ht : t' = ltOpTok := by
        rw [show (t0 :: ltOpTok :: ms ++ [gtOpTok]).get? 1 = some ltOpTok
          from rfl] at hg
        exact (Option.some_inj.mp hg).symm
      subst ht
      rw [if_pos (show ltOpTok.type = TokenType.operator
        ∧ ltOpTok.value = ['<'] from ⟨rfl, rfl⟩)]
      simp only [angle_block_at_one t0 ms hso]
      rw [blockInnerOk_false ms t n hn hbad]
      rw [if_neg (show ¬ (isCompleteCodeBlock (ltOpTok :: ms ++ [gtOpTok]) = true
        ∧ false = true) from fun hh => Bool.false_ne_true hh.2)]
      exact csLoop_skip (ms.length + 2) _ (1 + 1) (tail_no_lt t0 ms hpar)

/-- An identifier token is never a same or opposite delimiter for the
`<` opener. -/
theorem ident_same_opp (b : Token) (hb : b.type = TokenType.identifier) :
    isSameParen b ltOpTok.value = false
      ∧ isOppositeParen PARENS_EXT b ltOpTok.value = false := by
  constructor
  · simp only [isSameParen, decide_eq_false_iff_not]
    intro hand
    have hpo := of_decide_eq_true (show decide (b.type = TokenType.punctuation
      ∨ b.type = TokenType.operator) = true from hand.1)
    rcases hpo with h1 | h1
    · exact absurd (hb.symm.trans h1) (by decide)
    · exact absurd (hb.symm.trans h1) (by decide)
  · unfold isOppositeParen
    simp only [show subIndexOf PARENS_EXT ltOpTok.value = some 3 from rfl]
    rw [decide_eq_false_iff_not]
    intro hand
    have hpo := of_decide_eq_true (show decide (b.type = TokenType.punctuation
      ∨ b.type = TokenType.operator) = true from hand.1)
    rcases hpo with h1 | h1
    · exact absurd (hb.symm.trans h1) (by decide)
    · exact absurd (hb.symm.trans h1) (by decide)

/-- On the unterminated comparison `a < b` the block extraction walks
off the end of the array and returns only `[<, b]`. -/
theorem short_block_at_one (a b : Token)
    (hbs : isSameParen b ltOpTok.value = false)
    (hbo : isOppositeParen PARENS_EXT b ltOpTok.value = false) :
    getCodeBlockAt [a, ltOpTok, b] 1 Direction.fwd PARENS_EXT
      = [ltOpTok, b] := by
  unfold getCodeBlockAt
  rw [show ([a, ltOpTok, b] : List Token).get? 1 = some ltOpTok from rfl]
  show (if isPuncOrOp ltOpTok = true
        ∧ strIncludes PARENS_EXT ltOpTok.value = true
      then ltOpTok :: codeBlockFwd [a, ltOpTok, b] PARENS_EXT ltOpTok.value
        (1 + 1) 0 (List.length ([a, ltOpTok, b] : List Token))
      else [])
    = [ltOpTok, b]
  have hcond : isPuncOrOp ltOpTok = true
      ∧ strIncludes PARENS_EXT ltOpTok.value = true := ⟨rfl, rfl⟩
  rw [if_pos hcond]
  have hfwd := codeBlockFwd_exhaust PARENS_EXT ltOpTok.value [b] [a, ltOpTok]
    (List.length ([a, ltOpTok, b] : List Token))
    (fun t ht => by
      rw [List.mem_singleton.mp ht]
      exact ⟨hbs, hbo⟩)
    (by simp)
  exact congrArg (ltOpTok :: ·) hfwd

/-- The truncated run `[<, b]` of the unterminated comparison fails the
completeness check: its last token is not the `>` closer. -/
theorem short_block_incomplete (b : Token)
    (hbo : isOppositeParen PARENS_EXT b ltOpTok.value = false) :
    isCompleteCodeBlock [ltOpTok, b] = false := by
  rw [show isCompleteCodeBlock [ltOpTok, b]
      = decide (isPuncOrOp ltOpTok = true
        ∧ isOppositeParen PARENS_EXT b ltOpTok.value = true) from rfl]
  rw [decide_eq_false_iff_not]
  intro hand
  exact Bool.false_ne_true (hbo ▸ hand.2)

/-- The TypeScript loop leaves the unterminated comparison `a < b`
(identifiers around a lone `<`) unchanged. -/
theorem tsLoop_short_cmp (a b : Token)
    (ha : a.type = TokenType.identifier)
    (hb : b.type = TokenType.identifier) :
    tsRemoveGenericsLoop [a, ltOpTok, b] 0
      (List.length ([a, ltOpTok, b] : List Token) + 1) = [a, ltOpTok, b] := by
  have hso := ident_same_opp b hb
  have ha2 : ¬ (a.type = TokenType.operator ∧ a.value = ['<']) :=
    fun hh => absurd (ha.symm.trans hh.1) (by decide)
  have hb2 : ¬ (b.type = TokenType.operator ∧ b.value = ['<']) :=
    fun hh => absurd (hb.symm.trans hh.1) (by decide)
  conv_lhs => rw [tsRemoveGenericsLoop]
  rw [if_pos (show (0:Nat) < List.length ([a, ltOpTok, b] : List Token)
    from by simp)]
  split
  · rename_i hg
    exact absurd hg (by
      rw [show ([a, ltOpTok, b] : List Token).get? 0 = some a from rfl]
      simp)
  · rename_i t hg
    have ht : t = a := by
      rw [show ([a, ltOpTok, b] : List Token).get? 0 = some a from rfl] at hg
      exact (Option.some_inj.mp hg).symm
    rw [ht]
    rw [if_neg ha2]
    rw [show List.length ([a, ltOpTok, b] : List Token) = 2 + 1 from rfl]
    conv_lhs => rw [tsRemoveGenericsLoop]
    rw [if_pos (show (1:Nat) < List.length ([a, ltOpTok, b] : List Token)
      from by simp)]
    split
    · rename_i hg2
      exact absurd hg2 (by
        rw [show ([a, ltOpTok, b] : List Token).get? 1 = some ltOpTok from rfl]
        simp)
    · rename_i t2 hg2
      have ht2 : t2 = ltOpTok := by
        rw [show ([a, ltOpTok, b] : List Token).get? 1 = some ltOpTok
          from rfl] at hg2
        exact (Option.some_inj.mp hg2).symm
      subst ht2
      rw [if_pos (show ltOpTok.type = TokenType.operator
        ∧ ltOpTok.value = ['<'] from ⟨rfl, rfl⟩)]
      simp only [short_block_at_one a b hso.1 hso.2]
      rw [short_block_incomplete b hso.2]
      rw [if_pos (show ¬ (false = true) from by decide)]
      refine tsLoop_skip 2 _ (1 + 1) ?_
      intro j hj t3 hg3 hand
      obtain ⟨k, rfl⟩ : ∃ k, j = k + 2 := ⟨j - 2, by omega⟩
      have hb3 : ([b] : List Token).get? k = some t3 := by
        rw [show ([a, ltOpTok, b] : List Token).get? (k + 2)
            = ([b] : List Token).get? k from rfl] at hg3
        exact hg3
      rw [List.mem_singleton.mp (List.get?_mem hb3)] at hand
      exact hb2 hand

/-- The C# scanning loop leaves the unterminated comparison `a < b`
unchanged: the truncated block fails the completeness check. -/
theorem csLoop_short_cmp (a b : Token)
    (ha : a.type = TokenType.identifier)
    (hb : b.type = TokenType.identifier) :
    csRemoveTypesLoop [a, ltOpTok, b] 0
      (List.length ([a, ltOpTok, b] : List Token) + 1) = [a, ltOpTok, b] := by
  have hso := ident_same_opp b hb
  have ha2 : ¬ (a.type = TokenType.operator ∧ a.value = ['<']) :=
    fun hh => absurd (ha.symm.trans hh.1) (by decide)
  have hb2 : ¬ (b.type = TokenType.operator ∧ b.value = ['<']) :=
    fun hh => absurd (hb.symm.trans hh.1) (by decide)
  conv_lhs => rw [csRemoveTypesLoop]
  rw [if_pos (show (0:Nat) < List.length ([a, ltOpTok, b] : List Token)
    from by simp)]
  split
  · rename_i hg
    exact absurd hg (by
      rw [show ([a, ltOpTok, b] : List Token).get? 0 = some a from rfl]
      simp)
  · rename_i t hg
    have ht : t = a := by
      rw [show ([a, ltOpTok, b] : List Token).get? 0 = some a from rfl] at hg
      exact (Option.some_inj.mp hg).symm
    rw [ht]
    rw [if_neg ha2]
    rw [show List.length ([a, ltOpTok, b] : List Token) = 2 + 1 from rfl]
    conv_lhs => rw [csRemoveTypesLoop]
    rw [if_pos (show (1:Nat) < List.length ([a, ltOpTok, b] : List Token)
      from by simp)]
    split
    · rename_i hg2
      exact absurd hg2 (by
        rw [show ([a, ltOpTok, b] : List Token).get? 1 = some ltOpTok from rfl]
        simp)
    · rename_i t2 hg2
      have ht2 : t2 = ltOpTok := by
        rw [show ([a, ltOpTok, b] : List Token).get? 1 = some ltOpTok
          from rfl] at hg2
        exact (Option.some_inj.mp hg2).symm
      subst ht2
      rw [if_pos (show ltOpTok.type = TokenType.operator
        ∧ ltOpTok.value = ['<'] from ⟨rfl, rfl⟩)]
      simp only [short_block_at_one a b hso.1 hso.2]
      rw [short_block_incomplete b hso.2]
      rw [if_neg (show ¬ (false = true ∧ blockInnerOk [ltOpTok, b] = true)
        from fun hh => Bool.false_ne_true hh.1)]
      refine csLoop_skip 2 _ (1 + 1) ?_
      intro j hj t3 hg3 hand
      obtain ⟨k, rfl⟩ : ∃ k, j = k + 2 := ⟨j - 2, by omega⟩
      have hb3 : ([b] : List Token).get? k = some t3 := by
        rw [show ([a, ltOpTok, b] : List Token).get? (k + 2)
            = ([b] : List Token).get? k from rfl] at hg3
        exact hg3
      rw [List.mem_singleton.mp (List.get?_mem hb3)] at hand
      exact hb2 hand

/-- C5 (amended).  The identifiers-and-commas interior restriction the
claim states for "the type/generic-stripping parse step" belongs only
to the C# `removeTypes` step.  (1) The TypeScript `removeGenerics`
step removes every complete `<...>` block whose interior is free of
angle-bracket delimiters and of the logical operators `&&`/`||`; the
interior is otherwise unrestricted, so `x < a + b >` is stripped.
(2) A block whose interior holds `&&`/`||` is removed by neither step
(the C# step also rejects it, a logical operator being neither an
identifier nor a comma).  (3) The C# step never removes a block whose
interior holds a non-identifier, non-comma token.  (4) The C# step
does remove a complete block with an identifiers-and-commas interior.
(5) An unterminated comparison `a < b` is removed by neither step. -/
theorem c5_generic_strip_amended :
    (∀ (pr : ParseResult) (t0 : Token) (ms : List Token),
      ¬ (t0.type = TokenType.operator ∧ t0.value = ['<']) →
      (∀ t ∈ ms, ¬ (isPuncOrOp t = true
        ∧ (t.value = ['<'] ∨ t.value = ['>']))) →
      (∀ t ∈ ms, ¬ (t.type = TokenType.operator
        ∧ (t.value = "&&".toList ∨ t.value = "||".toList))) →
      pr.tokens = t0 :: ltOpTok :: ms ++ [gtOpTok] →
      (tsRemoveGenerics pr).tokens = [t0])
    ∧ (∀ (pr : ParseResult) (t0 : Token) (ms : List Token),
      ¬ (t0.type = TokenType.operator ∧ t0.value = ['<']) →
      (∀ t ∈ ms, ¬ (isPuncOrOp t = true
        ∧ (t.value = ['<'] ∨ t.value = ['>']))) →
      (∃ t ∈ ms, t.type = TokenType.operator
        ∧ (t.value = "&&".toList ∨ t.value = "||".toList)) →
      pr.tokens = t0 :: ltOpTok :: ms ++ [gtOpTok] →
      (tsRemoveGenerics pr).tokens = pr.tokens
        ∧ (csRemoveTypes pr).tokens = dropConsecutiveIdents pr.tokens)
    ∧ (∀ (pr : ParseResult) (t0 : Token) (ms : List Token) (t : Token)
        (n : Nat),
      ¬ (t0.type = TokenType.operator ∧ t0.value = ['<']) →
      (∀ t2 ∈ ms, ¬ (isPuncOrOp t2 = true
        ∧ (t2.value = ['<'] ∨ t2.value = ['>']))) →
      ms.get? n = some t →
      ¬ (t.type = TokenType.identifier
        ∨ (t.type = TokenType.punctuation ∧ t.value = [','])) →
      pr.tokens = t0 :: ltOpTok :: ms ++ [gtOpTok] →
      (csRemoveTypes pr).tokens = dropConsecutiveIdents pr.tokens)
    ∧ (∀ (pr : ParseResult) (t0 : Token) (ms : List Token),
      ¬ (t0.type = TokenType.operator ∧ t0.value = ['<']) →
      (∀ t ∈ ms, t.type = TokenType.identifier
        ∨ (t.type = TokenType.punctuation ∧ t.value = [','])) →
      pr.tokens = t0 :: ltOpTok :: ms ++ [gtOpTok] →
      (csRemoveTypes pr).tokens = [t0])
    ∧ (∀ (pr : ParseResult) (a b : Token),
      a.type = TokenType.identifier → b.type = TokenType.identifier →
      pr.tokens = [a, ltOpTok, b] →
      (tsRemoveGenerics pr).tokens = pr.tokens
        ∧ (csRemoveTypes pr).tokens = pr.tokens) := by
  refine ⟨?_, ?_, ?_, ?_, ?_⟩
  · intro pr t0 ms h0 hpar hamp hpr
    show tsRemoveGenericsLoop pr.tokens 0 (pr.tokens.length + 1) = [t0]
    rw [hpr]
    exact tsLoop_strip_angle t0 ms h0 hpar hamp
  · intro pr t0 ms h0 hpar hex hpr
    constructor
    · show tsRemoveGenericsLoop pr.tokens 0 (pr.tokens.length + 1) = pr.tokens
      rw [hpr]
      exact tsLoop_keep_amp t0 ms h0 hpar hex
    · show dropConsecutiveIdents
          (csRemoveTypesLoop pr.tokens 0 (pr.tokens.length + 1))
        = dropConsecutiveIdents pr.tokens
      obtain ⟨t, ht, ht1, ht2⟩ := hex
      obtain ⟨n, hn⟩ := List.mem_iff_get?.mp ht
      have hbad : ¬ (t.type = TokenType.identifier
          ∨ (t.type = TokenType.punctuation ∧ t.value = [','])) := by
        intro hc
        rcases hc with hc | ⟨hc, _⟩
        · exact absurd (ht1.symm.trans hc) (by decide)
        · exact absurd (ht1.symm.trans hc) (by decide)
      rw [hpr]
      rw [csLoop_keep_bad t0 ms h0 hpar t n hn hbad]
  · intro pr t0 ms t n h0 hpar hn hbad hpr
    show dropConsecutiveIdents
        (csRemoveTypesLoop pr.tokens 0 (pr.tokens.length + 1))
      = dropConsecutiveIdents pr.tokens
    rw [hpr]
    rw [csLoop_keep_bad t0 ms h0 hpar t n hn hbad]
  · intro pr t0 ms h0 hic hpr
    show dropConsecutiveIdents
        (csRemoveTypesLoop pr.tokens 0 (pr.tokens.length + 1)) = [t0]
    rw [hpr]
    rw [csLoop_strip_angle t0 ms h0 hic]
    exact dropIdents_singleton t0
  · intro pr a b ha hb hpr
    constructor
    · show tsRemoveGenericsLoop pr.tokens 0 (pr.tokens.length + 1) = pr.tokens
      rw [hpr]
      exact tsLoop_short_cmp a b ha hb
    · show dropConsecutiveIdents
          (csRemoveTypesLoop pr.tokens 0 (pr.tokens.length + 1)) = pr.tokens
      rw [hpr]
      rw [csLoop_short_cmp a b ha hb]
      exact dropIdents_three a b

/-- Closed witness for the amended C5: on `x < a + b >` the TypeScript
step strips the block while the C# step only applies its
identifier-run filter; on `x < a && b >` neither step strips; on
`Fn < A , B >` the C# step strips; and `a < b` is left intact by
both. -/
theorem c5_generic_strip_amended_witness :
    (tsRemoveGenerics
        { tokens := [⟨TokenType.identifier, "x".toList⟩, ltOpTok,
            ⟨TokenType.identifier, "a".toList⟩,
            ⟨TokenType.operator, "+".toList⟩,
            ⟨TokenType.identifier, "b".toList⟩, gtOpTok],
          logItems := [] }).tokens
      = [⟨TokenType.identifier, "x".toList⟩]
    ∧ (tsRemoveGenerics
        { tokens := [⟨TokenType.identifier, "x".toList⟩, ltOpTok,
            ⟨TokenType.identifier, "a".toList⟩,
            ⟨TokenType.operator, "&&".toList⟩,
            ⟨TokenType.identifier, "b".toList⟩, gtOpTok],
          logItems := [] }).tokens
      = [⟨TokenType.identifier, "x".toList⟩, ltOpTok,
          ⟨TokenType.identifier, "a".toList⟩,
          ⟨TokenType.operator, "&&".toList⟩,
          ⟨TokenType.identifier, "b".toList⟩, gtOpTok]
    ∧ (csRemoveTypes
        { tokens := [⟨TokenType.identifier, "x".toList⟩, ltOpTok,
            ⟨TokenType.identifier, "a".toList⟩,
            ⟨TokenType.operator, "+".toList⟩,
            ⟨TokenType.identifier, "b".toList⟩, gtOpTok],
          logItems := [] }).tokens
      = [⟨TokenType.identifier, "x".toList⟩, ltOpTok,
          ⟨TokenType.identifier, "a".toList⟩,
          ⟨TokenType.operator, "+".toList⟩,
          ⟨TokenType.identifier, "b".toList⟩, gtOpTok]
    ∧ (csRemoveTypes
        { tokens := [⟨TokenType.identifier, "Fn".toList⟩, ltOpTok,
            ⟨TokenType.identifier, "A".toList⟩,
            ⟨TokenType.punctuation, ",".toList⟩,
            ⟨TokenType.identifier, "B".toList⟩, gtOpTok],
          logItems := [] }).tokens
      = [⟨TokenType.identifier, "Fn".toList⟩]
    ∧ (tsRemoveGenerics
        { tokens := [⟨TokenType.identifier, "a".toList⟩, ltOpTok,
            ⟨TokenType.identifier, "b".toList⟩],
          logItems := [] }).tokens
      = [⟨TokenType.identifier, "a".toList⟩, ltOpTok,
          ⟨TokenType.identifier, "b".toList⟩]
    ∧ (csRemoveTypes
        { tokens := [⟨TokenType.identifier, "a".toList⟩, ltOpTok,
            ⟨TokenType.identifier, "b".toList⟩],
          logItems := [] }).tokens
      = [⟨TokenType.identifier, "a".toList⟩, ltOpTok,
          ⟨TokenType.identifier, "b".toList⟩] :=
  ⟨c5_generic_strip_amended.1
      { tokens := [⟨TokenType.identifier, "x".toList⟩, ltOpTok,
          ⟨TokenType.identifier, "a".toList⟩,
          ⟨TokenType.operator, "+".toList⟩,
          ⟨TokenType.identifier, "b".toList⟩, gtOpTok],
        logItems := [] }
      ⟨TokenType.identifier, "x".toList⟩
      [⟨TokenType.identifier, "a".toList⟩,
        ⟨TokenType.operator, "+".toList⟩,
        ⟨TokenType.identifier, "b".toList⟩]
      (by decide) (by decide) (by decide) rfl,
    (c5_generic_strip_amended.2.1
      { tokens := [⟨TokenType.identifier, "x".toList⟩, ltOpTok,
          ⟨TokenType.identifier, "a".toList⟩,
          ⟨TokenType.operator, "&&".toList⟩,
          ⟨TokenType.identifier, "b".toList⟩, gtOpTok],
        logItems := [] }
      ⟨TokenType.identifier, "x".toList⟩
      [⟨TokenType.identifier, "a".toList⟩,
        ⟨TokenType.operator, "&&".toList⟩,
        ⟨TokenType.identifier, "b".toList⟩]
      (by decide) (by decide) (by decide) rfl).1,
    c5_generic_strip_amended.2.2.1
      { tokens := [⟨TokenType.identifier, "x".toList⟩, ltOpTok,
          ⟨TokenType.identifier, "a".toList⟩,
          ⟨TokenType.operator, "+".toList⟩,
          ⟨TokenType.identifier, "b".toList⟩, gtOpTok],
        logItems := [] }
      ⟨TokenType.identifier, "x".toList⟩
      [⟨TokenType.identifier, "a".toList⟩,
        ⟨TokenType.operator, "+".toList⟩,
        ⟨TokenType.identifier, "b".toList⟩]
      ⟨TokenType.operator, "+".toList⟩ 1
      (by decide) (by decide) rfl (by decide) rfl,
    c5_generic_strip_amended.2.2.2.1
      { tokens := [⟨TokenType.identifier, "Fn".toList⟩, ltOpTok,
          ⟨TokenType.identifier, "A".toList⟩,
          ⟨TokenType.punctuation, ",".toList⟩,
          ⟨TokenType.identifier, "B".toList⟩, gtOpTok],
        logItems := [] }
      ⟨TokenType.identifier, "Fn".toList⟩
      [⟨TokenType.identifier, "A".toList⟩,
        ⟨TokenType.punctuation, ",".toList⟩,
        ⟨TokenType.identifier, "B".toList⟩]
      (by decide) (by decide) rfl,
    (c5_generic_strip_amended.2.2.2.2
      { tokens := [⟨TokenType.identifier, "a".toList⟩, ltOpTok,
          ⟨TokenType.identifier, "b".toList⟩],
        logItems := [] }
      ⟨TokenType.identifier, "a".toList⟩
      ⟨TokenType.identifier, "b".toList⟩ rfl rfl rfl).1,
    (c5_generic_strip_amended.2.2.2.2
      { tokens := [⟨TokenType.identifier, "a".toList⟩, ltOpTok,
          ⟨TokenType.identifier, "b".toList⟩],
        logItems := [] }
      ⟨TokenType.identifier, "a".toList⟩
      ⟨TokenType.identifier, "b".toList⟩ rfl rfl rfl).2⟩

/-- Closed witness for C10: a concrete 4-token stream where the result
of the backward scan from index 3 ignores the head token entirely, and
the concrete balanced block `( x )` scanned backward from its `)`
yields a run that omits the `(` at index 0 and fails the completeness
check. -/
theorem c10_backward_scan_skips_index_zero_witness :
    (getCodeBlockAt [⟨TokenType.identifier, "a".toList⟩,
        ⟨TokenType.punctuation, "(".toList⟩,
        ⟨TokenType.identifier, "x".toList⟩,
        ⟨TokenType.punctuation, ")".toList⟩] 3 Direction.bwd PARENS
      = getCodeBlockAt [⟨TokenType.keyword, "if".toList⟩,
        ⟨TokenType.punctuation, "(".toList⟩,
        ⟨TokenType.identifier, "x".toList⟩,
        ⟨TokenType.punctuation, ")".toList⟩] 3 Direction.bwd PARENS)
    ∧ (getCodeBlockAt [⟨TokenType.punctuation, "(".toList⟩,
        ⟨TokenType.identifier, "x".toList⟩,
        ⟨TokenType.punctuation, ")".toList⟩] 2 Direction.bwd PARENS
      = [⟨TokenType.punctuation, ")".toList⟩,
          ⟨TokenType.identifier, "x".toList⟩]
      ∧ (⟨TokenType.punctuation, "(".toList⟩ : Token)
          ∉ [(⟨TokenType.punctuation, ")".toList⟩ : Token),
              ⟨TokenType.identifier, "x".toList⟩]
      ∧ isCompleteCodeBlock [⟨TokenType.punctuation, ")".toList⟩,
          ⟨TokenType.identifier, "x".toList⟩] = false) :=
  ⟨c10_backward_scan_skips_index_zero.1
      ⟨TokenType.identifier, "a".toList⟩
      ⟨TokenType.keyword, "if".toList⟩
      [⟨TokenType.punctuation, "(".toList⟩,
        ⟨TokenType.identifier, "x".toList⟩,
        ⟨TokenType.punctuation, ")".toList⟩] 2 PARENS,
    c10_backward_scan_skips_index_zero.2
      [⟨TokenType.identifier, "x".toList⟩] (by decide)⟩

/-- Closed witness for C6: the universally quantified reader property
evaluated at the concrete input `12a` — the reader stops before the
`a`, and the digit guarantee applied to the consumed character `1`. -/
theorem c6_number_reader_digits_only_witness :
    readNumber "12a".toList 0
      = ({ type := TokenType.number, value := "12".toList }, 2)
    ∧ isDigitChar '1' = true :=
  ⟨((c6_number_reader_digits_only.1 "12a".toList 0).1).trans (by decide),
    (c6_number_reader_digits_only.1 "12a".toList 0).2.2 '1' (by decide)⟩
